import Mathlib

/-!
# Wellness journal (`src/app.js`): entry store, import/merge, analytics window

A shallow embedding of the data-management layer of `app.js`.

* The module-level variables `entries`, `savedPeptides`, `currentPeptides`,
  `selectedRange`, `editingEntryId` become the fields of `State`; every handler is a
  function from `State` (plus what the browser supplies: form fields, the answer to
  `confirm`, the clock, `generateId()`) to `State`.
* `showToast` is recorded in `State.toasts`. DOM rendering and the `localStorage` writes of
  `saveData` do not touch the module variables and are left out.
* `new Date(str)` is modelled by `dateParse` (milliseconds since the epoch, `none` for an
  invalid date, i.e. `NaN`) for date-only strings; `getFilteredEntriesIn` takes the engine's
  own parsing and the time zone as parameters.
* Scores and dosages are exact numbers in the store model; where the program's double
  arithmetic or its non-finite numbers matter (the summary cards, the backup file) they are
  modelled explicitly (`toDouble`, `NumValue`).
* `Array.prototype.sort` is modelled by a stable insertion sort driven by the comparator,
  with a `NaN` comparator result read as `+0` (ECMAScript `SortCompare`).
-/

namespace WellnessJournal

/-! ## Data model -/

/-- A substance as stored in `savedPeptides` and in an entry: `{ name, dosage, unit, site }`.
JavaScript numbers are modelled by exact rationals. -/
structure Peptide where
  name : String
  dosage : ℚ
  unit : String
  site : String
deriving DecidableEq

/-- An element of `currentPeptides`: `{ ...p, administered }`. -/
structure CurrentPeptide where
  name : String
  dosage : ℚ
  unit : String
  site : String
  administered : Bool
deriving DecidableEq

/-- The object `scores: { wellness, energy, pain, sleep, mobility }` (results of `parseInt`). -/
structure Scores where
  wellness : Int
  energy : Int
  pain : Int
  sleep : Int
  mobility : Int
deriving DecidableEq

/-- A journal entry as built in `handleSubmit`. `createdAt` is optional because
`entries.find(...)?.createdAt` is `undefined` when no entry is found. -/
structure Entry where
  id : String
  date : String
  scores : Scores
  peptides : List Peptide
  notes : String
  createdAt : Option String
  updatedAt : String
deriving DecidableEq

/-! ## Dates -/

/-- Milliseconds per day. -/
def msPerDay : Int := 86400000

/-- Value of a decimal digit character. -/
def digitValue (c : Char) : Option Nat :=
  if c.isDigit then some (c.toNat - 48) else none

/-- ECMAScript `DayFromYear`: day number of 1 January of year `y`. -/
def dayFromYear (y : Int) : Int :=
  365 * (y - 1970) + (y - 1969) / 4 - (y - 1901) / 100 + (y - 1601) / 400

/-- ECMAScript `InLeapYear`. -/
def inLeapYear (y : Nat) : Bool :=
  (y % 4 == 0 && y % 100 != 0) || y % 400 == 0

/-- Number of days in month `m` (1 to 12). -/
def daysInMonth (leap : Bool) (m : Nat) : Nat :=
  match m with
  | 1 => 31
  | 2 => if leap then 29 else 28
  | 3 => 31
  | 4 => 30
  | 5 => 31
  | 6 => 30
  | 7 => 31
  | 8 => 31
  | 9 => 30
  | 10 => 31
  | 11 => 30
  | 12 => 31
  | _ => 0

/-- Days of the year that precede the first day of month `m` (1 to 12). -/
def daysBeforeMonth (leap : Bool) (m : Nat) : Nat :=
  ((List.range (m - 1)).map (fun i => daysInMonth leap (i + 1))).sum

/-- The calendar fields of a date-only string `YYYY-MM-DD`. -/
def parseYMD (cs : List Char) : Option (Nat × Nat × Nat) :=
  match cs with
  | [y1, y2, y3, y4, '-', m1, m2, '-', d1, d2] =>
    match digitValue y1, digitValue y2, digitValue y3, digitValue y4,
          digitValue m1, digitValue m2, digitValue d1, digitValue d2 with
    | some a, some b, some c, some d, some e, some f, some g, some h =>
      some (1000 * a + 100 * b + 10 * c + d, 10 * e + f, 10 * g + h)
    | _, _, _, _, _, _, _, _ => none
  | _ => none

/-- The time value of `new Date(str)`: a date-only ISO string `YYYY-MM-DD` (what the form's
date field holds) is read as midnight UTC of that day, in milliseconds since the epoch;
every other string (the empty string included) gives an invalid date, `none` (`NaN`).
Other formats that an engine accepts (full timestamps, legacy formats) are not modelled. -/
def dateParse (str : String) : Option Int :=
  match parseYMD str.toList with
  | some (y, m, d) =>
    if 1 ≤ m ∧ m ≤ 12 ∧ 1 ≤ d ∧ d ≤ daysInMonth (inLeapYear y) m then
      some ((dayFromYear y + daysBeforeMonth (inLeapYear y) m + d - 1) * msPerDay)
    else none
  | none => none

/-- The subtraction `new Date(x) - new Date(y)`; `none` is `NaN`. -/
def dateDiff (x y : String) : Option Int :=
  match dateParse x, dateParse y with
  | some a, some b => some (a - b)
  | _, _ => none

/-- ECMAScript `LocalTime(t)` in a zone whose offset from UTC is the constant `tza`. -/
def localTime (t tza : Int) : Int := t + tza

/-- ECMAScript `UTC(t)` in a zone whose offset from UTC is the constant `tza`. -/
def utcTime (t tza : Int) : Int := t - tza

/-- ECMAScript `Day(t)`. -/
def dayOf (t : Int) : Int := t / msPerDay

/-- ECMAScript `TimeWithinDay(t)`. -/
def timeWithinDay (t : Int) : Int := t % msPerDay

/-- ECMAScript `MakeDate(day, time)`. -/
def makeDate (day time : Int) : Int := day * msPerDay + time

/-- The time value after `cutoff.setDate(cutoff.getDate() - n)` on a date whose time value
is `t`, in a zone with the constant offset `tza` and while the result is inside the range of
`Date`: `setDate` keeps the local time within the day and moves the local day. By the
definition of `MakeDay`, the day of `(year, month, getDate() - n)` is `Day(LocalTime(t)) - n`.
The general case (any zone, `TimeClip`) is `setDateIn`. -/
def setDateBack (t tza n : Int) : Int :=
  utcTime (makeDate (dayOf (localTime t tza) - n) (timeWithinDay (localTime t tza))) tza

/-! ## Sorting -/

/-- Insert `a` in front of the first element that the comparator does not put before it. -/
def insertBy {α : Type} (cmp : α → α → Int) (a : α) : List α → List α
  | [] => [a]
  | b :: l => if cmp a b ≤ 0 then a :: b :: l else b :: insertBy cmp a l

/-- `Array.prototype.sort(cmp)`: a stable sort by the comparator. -/
def sortBy {α : Type} (cmp : α → α → Int) : List α → List α
  | [] => []
  | a :: l => insertBy cmp a (sortBy cmp l)

/-- The comparator `(a, b) => new Date(b.date) - new Date(a.date)`; `NaN` counts as `+0`. -/
def compareDesc (a b : Entry) : Int := (dateDiff b.date a.date).getD 0

/-- The comparator `(a, b) => new Date(a.date) - new Date(b.date)`; `NaN` counts as `+0`. -/
def compareAsc (a b : Entry) : Int := (dateDiff a.date b.date).getD 0

/-- The statement `entries.sort((a, b) => new Date(b.date) - new Date(a.date))`. -/
def sortDesc (es : List Entry) : List Entry := sortBy compareDesc es

/-- The call `.sort((a, b) => new Date(a.date) - new Date(b.date))`. -/
def sortAsc (es : List Entry) : List Entry := sortBy compareAsc es

/-! ## Application state -/

/-- Messages passed to `showToast`. -/
inductive Toast where
  /-- The message "Added n new entries". -/
  | added (n : Nat)
  /-- The message "Entry updated!". -/
  | entryUpdated
  /-- The message "Entry saved!". -/
  | entrySaved
  /-- The message "Entry deleted". -/
  | entryDeleted
  /-- The message "Editing entry...". -/
  | editing
  /-- The message "Data imported successfully!". -/
  | imported
  /-- The message "Error reading backup file". -/
  | importError
  /-- The message "Data exported successfully!". -/
  | exported
  /-- The message "Please enter a peptide name". -/
  | enterPeptideName
deriving DecidableEq

/-- A value held by the variable `savedPeptides`: normally an array of peptides; an import
can assign a JSON value that is not an array (a number, a string, `true`, an object). -/
inductive PeptideList where
  | list (ps : List Peptide)
  | other
deriving DecidableEq

/-- The window `selectedRange`: the string `'all'` or a day count. -/
inductive Range where
  | all
  | days (n : Int)
deriving DecidableEq

/-- The module-level variables of `app.js` and the toasts shown so far. -/
structure State where
  entries : List Entry
  savedPeptides : PeptideList
  currentPeptides : List CurrentPeptide
  selectedRange : Range
  editingEntryId : Option String
  toasts : List Toast
deriving DecidableEq

/-- The fields of the entry form read by `handleSubmit`; `notes` is the trimmed text. -/
structure Form where
  date : String
  wellness : Int
  energy : Int
  pain : Int
  sleep : Int
  mobility : Int
  notes : String
deriving DecidableEq

/-- What the browser supplies while a handler runs: the result of `generateId()`, the result
of `new Date().toISOString()`, and the user's answer to `confirm(...)`. -/
structure Env where
  newId : String
  now : String
  confirm : Bool
deriving DecidableEq

/-- The parsed backup file `data`. `entries` is `none` when `data.entries` is missing or is
not an array; the elements of an array are entry objects. `savedPeptides` is `none` when
`data.savedPeptides` is missing or falsy. -/
structure Backup where
  entries : Option (List Entry)
  savedPeptides : Option PeptideList
deriving DecidableEq

/-- JavaScript truthiness of `editingEntryId` (`null` and the empty string are falsy). -/
def truthy (id : Option String) : Bool :=
  match id with
  | some x => x != ""
  | none => false

/-- The call `showToast(message)`. -/
def showToast (s : State) (t : Toast) : State :=
  { s with toasts := s.toasts ++ [t] }

/-- The object pushed for an administered peptide: `{ name, dosage, unit, site }`. -/
def CurrentPeptide.toPeptide (p : CurrentPeptide) : Peptide :=
  { name := p.name, dosage := p.dosage, unit := p.unit, site := p.site }

/-- The expression `savedPeptides.map(p => ({ ...p, administered: false }))`. -/
def initCurrent (ps : List Peptide) : List CurrentPeptide :=
  ps.map (fun p =>
    { name := p.name, dosage := p.dosage, unit := p.unit, site := p.site, administered := false })

/-- `resetForm`: clears the administered flags and the editing target. -/
def resetForm (s : State) : State :=
  { s with
    currentPeptides := s.currentPeptides.map (fun p => { p with administered := false })
    editingEntryId := none }

/-- The forEach loop of `mergeEntries`: `existingDates` is computed once, before the loop;
the result is the array after the pushes and the counter `added`. -/
def mergeLoop (entries newEntries : List Entry) : List Entry × Nat :=
  let existingDates := entries.map (fun e => e.date)
  newEntries.foldl
    (fun acc entry =>
      if !existingDates.contains entry.date then (acc.1 ++ [entry], acc.2 + 1) else acc)
    (entries, 0)

/-- `mergeEntries(newEntries)`. -/
def mergeEntries (s : State) (newEntries : List Entry) : State :=
  let r := mergeLoop s.entries newEntries
  showToast { s with entries := sortDesc r.1 } (Toast.added r.2)

/-- The assignment of `data.savedPeptides` in `importData`, shared by both branches; the
call `savedPeptides.map` throws when the value is not an array, after the assignment. -/
def importPeptides (s : State) (saved : Option PeptideList) : Except State State :=
  match saved with
  | none => Except.ok (showToast s Toast.imported)
  | some (PeptideList.list ps) =>
    Except.ok (showToast
      { s with savedPeptides := PeptideList.list ps, currentPeptides := initCurrent ps }
      Toast.imported)
  | some PeptideList.other =>
    Except.error (showToast { s with savedPeptides := PeptideList.other } Toast.importError)

/-- The `reader.onload` callback of `importData`. `file` is `none` when `JSON.parse` throws.
`Except.error` is the `catch` branch, with the state it leaves behind. -/
def importData (s : State) (file : Option Backup) (confirm : Bool) : Except State State :=
  match file with
  | none => Except.error (showToast s Toast.importError)
  | some data =>
    match data.entries with
    | none => Except.error (showToast s Toast.importError)
    | some dataEntries =>
      if s.entries.length > 0 then
        if confirm then importPeptides (mergeEntries s dataEntries) data.savedPeptides
        else Except.ok s
      else importPeptides { s with entries := dataEntries } data.savedPeptides

/-- The entry object built by `handleSubmit` before the branch on `editingEntryId`. -/
def buildEntry (s : State) (f : Form) (env : Env) : Entry :=
  let editingId := s.editingEntryId.getD ""
  { id := if truthy s.editingEntryId then editingId else env.newId
    date := f.date
    scores :=
      { wellness := f.wellness, energy := f.energy, pain := f.pain, sleep := f.sleep,
        mobility := f.mobility }
    peptides := (s.currentPeptides.filter (fun p => p.administered)).map CurrentPeptide.toPeptide
    notes := f.notes
    createdAt :=
      if truthy s.editingEntryId then
        (s.entries.find? (fun e => e.id == editingId)).bind (fun e => e.createdAt)
      else some env.now
    updatedAt := env.now }

/-- The tail of `handleSubmit`: sort, `saveData()`, `resetForm()`, re-render. -/
def finishSubmit (s : State) : State :=
  resetForm { s with entries := sortDesc s.entries }

/-- `handleSubmit(e)`. `List.findIdx` returns the length where `findIndex` returns `-1`. -/
def handleSubmit (s : State) (f : Form) (env : Env) : State :=
  let entry := buildEntry s f env
  if truthy s.editingEntryId then
    let index := s.entries.findIdx (fun e => e.id == s.editingEntryId.getD "")
    let entries1 := if index < s.entries.length then s.entries.set index entry else s.entries
    finishSubmit (showToast { s with entries := entries1, editingEntryId := none } Toast.entryUpdated)
  else
    let existingIndex := s.entries.findIdx (fun e => e.date == f.date)
    if h : existingIndex < s.entries.length then
      if env.confirm then
        let old := s.entries[existingIndex]
        let entry1 := { entry with id := old.id, createdAt := old.createdAt }
        finishSubmit (showToast { s with entries := s.entries.set existingIndex entry1 }
          Toast.entrySaved)
      else s
    else
      finishSubmit (showToast { s with entries := s.entries ++ [entry] } Toast.entrySaved)

/-- `editEntry(id)`. -/
def editEntry (s : State) (id : String) : State :=
  match s.entries.find? (fun e => e.id == id) with
  | none => s
  | some entry =>
    showToast
      { s with
        editingEntryId := some id
        currentPeptides := s.currentPeptides.map (fun p =>
          { p with administered := entry.peptides.any (fun ep => ep.name == p.name) }) }
      Toast.editing

/-- `deleteEntry(id)`; `confirm` is the user's answer. -/
def deleteEntry (s : State) (id : String) (confirm : Bool) : State :=
  if confirm then
    showToast { s with entries := s.entries.filter (fun e => e.id != id) } Toast.entryDeleted
  else s

/-- `getFilteredEntries()` for date-only strings in a zone with a constant offset, with `now`
the time value of `new Date()` and `tza` the offset of the local time zone. The comparison
`new Date(e.date) >= cutoff` is false for an invalid date. The general case (the engine's
own parsing, any zone) is `getFilteredEntriesIn`. -/
def getFilteredEntries (s : State) (now tza : Int) : List Entry :=
  match s.selectedRange with
  | Range.all => sortAsc s.entries
  | Range.days n =>
    if s.entries.length = 0 then sortAsc s.entries
    else
      let cutoff := setDateBack now tza n
      sortAsc (s.entries.filter (fun e =>
        match dateParse e.date with
        | some t => decide (t ≥ cutoff)
        | none => false))

/-! ## Sample data -/

/-- An entry with the given id and date, scores all 5, nothing else. -/
def sampleEntry (id date : String) : Entry :=
  { id := id, date := date
    scores := { wellness := 5, energy := 5, pain := 5, sleep := 5, mobility := 5 }
    peptides := [], notes := "", createdAt := some "t0", updatedAt := "t0" }

/-- A state holding the given entries, with an empty registry and no editing target. -/
def sampleState (es : List Entry) : State :=
  { entries := es, savedPeptides := PeptideList.list [], currentPeptides := []
    selectedRange := Range.days 7, editingEntryId := none, toasts := [] }

/-- The dates of a collection, in order. -/
def dates (es : List Entry) : List String := es.map (fun e => e.date)

/-- A store holding one entry, dated 2024-01-01. -/
def oneEntryStore : State := sampleState [sampleEntry "a" "2024-01-01"]

/-- An incoming sequence with two entries for the same new date. -/
def twiceSameDate : List Entry := [sampleEntry "b" "2024-01-02", sampleEntry "c" "2024-01-02"]

/-- A store holding two entries, newest first. -/
def twoEntryStore : State :=
  sampleState [sampleEntry "a" "2024-01-02", sampleEntry "b" "2024-01-01"]

/-- A form whose date is 2024-01-01 and whose scores are all 7. -/
def formJan1 : Form :=
  { date := "2024-01-01", wellness := 7, energy := 7, pain := 7, sleep := 7, mobility := 7
    notes := "n" }

/-- An environment in which `confirm` is answered with OK. -/
def envYes : Env := { newId := "fresh", now := "t1", confirm := true }

/-- Entry `a` may stand before entry `b` in newest-first order: both dates are valid and
the date of `b` is not later than the date of `a`. -/
def newestFirst (a b : Entry) : Bool :=
  match dateParse a.date, dateParse b.date with
  | some ta, some tb => decide (tb ≤ ta)
  | _, _ => false

/-- The collection is sorted by date descending (newest first). -/
def SortedDesc (es : List Entry) : Prop := es.Pairwise (fun a b => newestFirst a b = true)

instance (es : List Entry) : Decidable (SortedDesc es) :=
  inferInstanceAs (Decidable (es.Pairwise (fun a b => newestFirst a b = true)))

/-- Every entry of the collection has a valid calendar date. -/
def ValidDates (es : List Entry) : Prop := ∀ e ∈ es, (dateParse e.date).isSome = true

instance (es : List Entry) : Decidable (ValidDates es) :=
  inferInstanceAs (Decidable (∀ e ∈ es, (dateParse e.date).isSome = true))

/-- The empty store. -/
def emptyStore : State := sampleState []

/-- A backup whose entries are listed oldest first. -/
def ascendingBackup : Backup :=
  { entries := some [sampleEntry "a" "2024-01-01", sampleEntry "b" "2024-01-03"]
    savedPeptides := none }

/-- A backup with one entry whose `savedPeptides` is a JSON value that is not an array
(for instance `"savedPeptides": 5`). -/
def brokenRegistryBackup : Backup :=
  { entries := some [sampleEntry "n" "2024-02-02"], savedPeptides := some PeptideList.other }

/-- The collection is in the order that `sortDesc` leaves alone: the comparator puts no
entry after its successor. A collection sorted newest first is in this order. -/
def SortOrder (es : List Entry) : Prop := List.Chain' (fun a b => compareDesc a b ≤ 0) es

/-- The array `administeredPeptides` computed by `handleSubmit`. -/
def administeredPeptides (s : State) : List Peptide :=
  (s.currentPeptides.filter (fun p => p.administered)).map CurrentPeptide.toPeptide

/-- The entry holding the submitted date, scores, substances and notes, with the given
`id`, `createdAt` and `updatedAt`. -/
def entryOfForm (f : Form) (peptides : List Peptide) (id : String) (createdAt : Option String)
    (updatedAt : String) : Entry :=
  { id := id, date := f.date
    scores :=
      { wellness := f.wellness, energy := f.energy, pain := f.pain, sleep := f.sleep,
        mobility := f.mobility }
    peptides := peptides, notes := f.notes, createdAt := createdAt, updatedAt := updatedAt }

/-- The two-entry store after entry `a` was opened for editing and then deleted. -/
def staleEditState : State := deleteEntry (editEntry twoEntryStore "a") "a" true

/-- A form for 2024-03-01 whose wellness score is 11. -/
def formScore11 : Form :=
  { date := "2024-03-01", wellness := 11, energy := 5, pain := 5, sleep := 5, mobility := 5
    notes := "" }

/-- A store with entries dated 2024-01-03 and 2024-01-01 and a window of 2 days. -/
def windowStore : State :=
  { sampleState [sampleEntry "x" "2024-01-03", sampleEntry "y" "2024-01-01"] with
    selectedRange := Range.days 2 }

/-- The instant 2024-01-03T00:00:00Z. -/
def midnightJan3 : Int := 1704240000000

/-- The instant 2024-01-03T12:00:00Z. -/
def noonJan3 : Int := 1704283200000

/-! ## Registry handlers -/

/-- The module variables before `loadData` runs. -/
def initialState : State :=
  { entries := [], savedPeptides := PeptideList.list [], currentPeptides := []
    selectedRange := Range.days 7, editingEntryId := none, toasts := [] }

/-- The registry that `loadData` uses when nothing is stored. -/
def defaultPeptides : List Peptide :=
  [{ name := "BPC-157", dosage := 250, unit := "mcg", site := "Abdomen" },
   { name := "TB-500", dosage := 5 / 2, unit := "mg", site := "Thigh" }]

/-- `loadData()`. `storedEntries` and `storedPeptides` are the parsed items of `localStorage`
(`none` when the key is absent); `PeptideList.other` stands here for any stored value that
is not an array. For such a value the call `savedPeptides.map` throws and the
initialisation stops: the result is `none`. -/
def loadData (storedEntries : Option (List Entry)) (storedPeptides : Option PeptideList) :
    Option State :=
  let s := { initialState with entries := storedEntries.getD [] }
  match storedPeptides.getD (PeptideList.list defaultPeptides) with
  | PeptideList.list ps =>
    some { s with savedPeptides := PeptideList.list ps, currentPeptides := initCurrent ps }
  | PeptideList.other => none

/-- `togglePeptide(index)`: reading `currentPeptides[index].administered` throws when the
index is out of range, and nothing changes. -/
def togglePeptide (s : State) (index : Int) : State :=
  if 0 ≤ index then
    match s.currentPeptides[index.toNat]? with
    | some p =>
      { s with
        currentPeptides :=
          s.currentPeptides.set index.toNat { p with administered := !p.administered } }
    | none => s
  else s

/-- The call `array.splice(index, 1)` seen as its effect on the array: a negative index
counts from the end, an index past the end removes nothing. -/
def splice1 {α : Type} (l : List α) (index : Int) : List α :=
  let start : Int := if index < 0 then max ((l.length : Int) + index) 0 else min index l.length
  l.eraseIdx start.toNat

/-- `removePeptide(index)`. When `savedPeptides` is not an array its `splice` throws, after
`currentPeptides` was spliced. -/
def removePeptide (s : State) (index : Int) : State :=
  match s.savedPeptides with
  | PeptideList.list ps =>
    { s with
      currentPeptides := splice1 s.currentPeptides index
      savedPeptides := PeptideList.list (splice1 ps index) }
  | PeptideList.other => { s with currentPeptides := splice1 s.currentPeptides index }

/-- `addPeptide()`, with `name` and `site` the trimmed fields and `dosage` the value of
`parseFloat(...) || 0`. When `savedPeptides` is not an array its `push` throws, after the
push to `currentPeptides`. -/
def addPeptide (s : State) (name : String) (dosage : ℚ) (unit site : String) : State :=
  if name = "" then showToast s Toast.enterPeptideName
  else
    let current := s.currentPeptides ++
      [{ name := name, dosage := dosage, unit := unit, site := site, administered := true }]
    match s.savedPeptides with
    | PeptideList.list ps =>
      { s with
        currentPeptides := current
        savedPeptides :=
          PeptideList.list (ps ++ [{ name := name, dosage := dosage, unit := unit, site := site }]) }
    | PeptideList.other => { s with currentPeptides := current }

/-- One user action on the registry, the form or the store. -/
inductive Action where
  | togglePeptide (index : Int)
  | addPeptide (name : String) (dosage : ℚ) (unit site : String)
  | removePeptide (index : Int)
  | resetForm
  | editEntry (id : String)
  | importData (file : Option Backup) (confirm : Bool)
  | handleSubmit (f : Form) (env : Env)
  | deleteEntry (id : String) (confirm : Bool)

/-- The state after one action; `none` when the action is an import that ends in the
`catch` branch. -/
def step (s : State) : Action → Option State
  | Action.togglePeptide index => some (togglePeptide s index)
  | Action.addPeptide name dosage unit site => some (addPeptide s name dosage unit site)
  | Action.removePeptide index => some (removePeptide s index)
  | Action.resetForm => some (resetForm s)
  | Action.editEntry id => some (editEntry s id)
  | Action.importData file confirm =>
    match importData s file confirm with
    | Except.ok s1 => some s1
    | Except.error _ => none
  | Action.handleSubmit f env => some (handleSubmit s f env)
  | Action.deleteEntry id confirm => some (deleteEntry s id confirm)

/-- The state after a sequence of actions, each of which succeeds. -/
def run (s : State) : List Action → Option State
  | [] => some s
  | a :: rest =>
    match step s a with
    | some s1 => run s1 rest
    | none => none

/-- The transient list and the registry are positionally aligned: the registry is an array
and stripping the flag from each transient element gives exactly the registry. -/
def Aligned (s : State) : Prop :=
  s.savedPeptides = PeptideList.list (s.currentPeptides.map CurrentPeptide.toPeptide)

/-- A peptide for the sample runs. -/
def samplePeptide (name : String) : Peptide :=
  { name := name, dosage := 1, unit := "mg", site := "" }

/-- A backup with no entries and a registry of two peptides. -/
def registryBackup : Backup :=
  { entries := some []
    savedPeptides := some (PeptideList.list [samplePeptide "x", samplePeptide "y"]) }

/-- A run that adds, toggles, removes (with indices in and out of range), imports, edits
and resets. -/
def sampleRun : List Action :=
  [Action.addPeptide "GHK" 2 "mg" "Arm", Action.togglePeptide 0, Action.togglePeptide 9,
   Action.removePeptide (-1), Action.removePeptide 7, Action.removePeptide 0,
   Action.importData (some registryBackup) true, Action.removePeptide (-5),
   Action.editEntry "a", Action.resetForm]

/-- The state after `loadData` with nothing stored. -/
def loadedDefault : State :=
  { initialState with
    savedPeptides := PeptideList.list defaultPeptides
    currentPeptides := initCurrent defaultPeptides }

/-- The state at the end of the sample run from `loadedDefault`. -/
def sampleRunEnd : State :=
  { initialState with
    savedPeptides := PeptideList.list [samplePeptide "y"]
    currentPeptides := initCurrent [samplePeptide "y"]
    toasts := [Toast.imported] }

/-! ## Analytics -/

/-- Round to the nearest integer, a tie going to the even one. -/
def roundHalfEven (m : ℚ) : Int :=
  if m - ((⌊m⌋ : Int) : ℚ) < 1 / 2 then ⌊m⌋
  else if 1 / 2 < m - ((⌊m⌋ : Int) : ℚ) then ⌊m⌋ + 1
  else if ⌊m⌋ % 2 = 0 then ⌊m⌋ else ⌊m⌋ + 1

/-- The exponent of the unit in the last place of the double nearest to `x`: 53 significant
bits, and the fixed spacing `2 ^ (-1074)` of the subnormal range. -/
def ulpExp (x : ℚ) : Int := max (Int.log 2 |x| - 52) (-1074)

/-- The double nearest to `x` (round to nearest, ties to even), before the check for
overflow. -/
def roundDouble (x : ℚ) : ℚ :=
  ((roundHalfEven (x / (2 : ℚ) ^ ulpExp x) : Int) : ℚ) * (2 : ℚ) ^ ulpExp x

/-- The JavaScript number that an arithmetic operation with exact result `x` gives: the
nearest double, or `none` when it overflows to `Infinity` or `-Infinity`. In the sum and the
quotient below `none` stands for any value that is not a finite number (`NaN` included). -/
def toDouble (x : ℚ) : Option ℚ :=
  if |roundDouble x| < (2 : ℚ) ^ (1024 : ℕ) then some (roundDouble x) else none

/-- The addition `a + b` of two JavaScript numbers; a sum with a value that is not finite is
not finite. -/
def addDouble (a b : Option ℚ) : Option ℚ :=
  match a, b with
  | some x, some y => toDouble (x + y)
  | _, _ => none

/-- The text of a summary card: `--`, a decimal numeral with one digit after the point
(given by its value), or another text (`NaN`, `Infinity`, an exponent form). -/
inductive CardText where
  | dashes
  | decimal (value : ℚ)
  | other
deriving DecidableEq

/-- The text `x.toFixed(1)`: for a finite `x` below `10 ^ 21` in absolute value the integer
`n` with `n / 10` closest to `x` (the larger one on a tie) is written with one digit after
the point, the sign being taken off a negative `x` first and put back. -/
def toFixed1 (v : Option ℚ) : CardText :=
  match v with
  | none => CardText.other
  | some x =>
    if (10 : ℚ) ^ (21 : ℕ) ≤ |x| then CardText.other
    else if x < 0 then CardText.decimal (-(((⌊(-x) * 10 + 1 / 2⌋ : Int) : ℚ) / 10))
    else CardText.decimal (((⌊x * 10 + 1 / 2⌋ : Int) : ℚ) / 10)

/-- The helper `avg = (arr) => (arr.reduce((a, b) => a + b, 0) / arr.length).toFixed(1)`:
every addition and the division are rounded to a double. A quotient by zero is not a finite
number. -/
def avg (arr : List Int) : CardText :=
  toFixed1
    (match arr.foldl (fun (a : Option ℚ) (b : Int) => addDouble a (toDouble (b : ℚ))) (some 0) with
     | some sum => if arr.length = 0 then none else toDouble (sum / (arr.length : ℚ))
     | none => none)

/-- The four summary cards written by `updateSummaryCards`. -/
structure SummaryCards where
  avgWellness : CardText
  avgEnergy : CardText
  avgPain : CardText
  totalEntries : Nat
deriving DecidableEq

/-- `updateSummaryCards(filteredEntries)`. -/
def updateSummaryCards (filteredEntries : List Entry) : SummaryCards :=
  if filteredEntries.length = 0 then
    { avgWellness := CardText.dashes, avgEnergy := CardText.dashes, avgPain := CardText.dashes
      totalEntries := 0 }
  else
    { avgWellness := avg (filteredEntries.map (fun e => e.scores.wellness))
      avgEnergy := avg (filteredEntries.map (fun e => e.scores.energy))
      avgPain := avg (filteredEntries.map (fun e => e.scores.pain))
      totalEntries := filteredEntries.length }

/-- The arithmetic mean of a sequence of scores. -/
def mean (xs : List Int) : ℚ := ((xs.sum : Int) : ℚ) / (xs.length : ℚ)

/-- The value `{ count, totalDosage, unit }` kept per name in `peptideCounts`. -/
structure PeptideStat where
  count : Nat
  totalDosage : ℚ
  unit : String
deriving DecidableEq

/-- The property names that the object literal `{}` inherits from `Object.prototype`; a read
`peptideCounts[name]` of one of them gives a function or an object, which is truthy. -/
def objectPrototypeKeys : List String :=
  ["constructor", "__defineGetter__", "__defineSetter__", "hasOwnProperty",
   "__lookupGetter__", "__lookupSetter__", "isPrototypeOf", "propertyIsEnumerable",
   "toString", "valueOf", "__proto__", "toLocaleString"]

/-- Truthiness of the read `peptideCounts[name]`: an own property (always an object) or an
inherited one. `counts` lists the own properties of `peptideCounts` in insertion order. -/
def hasTruthy (counts : List (String × PeptideStat)) (name : String) : Bool :=
  (counts.lookup name).isSome || objectPrototypeKeys.contains name

/-- The two updates `peptideCounts[p.name].count++` and
`peptideCounts[p.name].totalDosage += p.dosage || 0` on the aggregate `st`. -/
def bumpStat (p : Peptide) (st : PeptideStat) : PeptideStat :=
  { st with
    count := st.count + 1
    totalDosage := st.totalDosage + (if p.dosage = 0 then 0 else p.dosage) }

/-- The body of the inner `forEach` of `updatePeptideSummary` for one peptide `p`. The two
updates write to the own property of `peptideCounts` when there is one; for an inherited
name they write to the inherited object and `peptideCounts` gets no own property. -/
def countPeptide (counts : List (String × PeptideStat)) (p : Peptide) :
    List (String × PeptideStat) :=
  let counts1 :=
    if !hasTruthy counts p.name then
      counts ++ [(p.name, { count := 0, totalDosage := 0, unit := p.unit })]
    else counts
  counts1.map (fun kv => if kv.1 == p.name then (kv.1, bumpStat p kv.2) else kv)

/-- The object `peptideCounts` after the two nested `forEach` loops. -/
def peptideCounts (filteredEntries : List Entry) : List (String × PeptideStat) :=
  filteredEntries.foldl (fun counts entry => entry.peptides.foldl countPeptide counts) []

/-- `updatePeptideSummary(filteredEntries)`: `none` is the text "No peptide data in selected
range", otherwise the rows in display order (descending by count). -/
def updatePeptideSummary (filteredEntries : List Entry) :
    Option (List (String × PeptideStat)) :=
  let counts := peptideCounts filteredEntries
  if counts.length = 0 then none
  else some (sortBy (fun a b => (b.2.count : Int) - (a.2.count : Int)) counts)

/-- The occurrences of a name in the substance lists of the entries, in order. -/
def occurrences (name : String) (es : List Entry) : List Peptide :=
  (es.flatMap (fun e => e.peptides)).filter (fun p => p.name == name)

/-- The aggregate that the claim describes for the occurrences of one name: none when
there is no occurrence, otherwise their number, the sum of their dosages and the unit of
the first. -/
def aggregateOf (occ : List Peptide) : Option PeptideStat :=
  match occ with
  | [] => none
  | p :: rest =>
    some { count := (p :: rest).length
           totalDosage := ((p :: rest).map (fun q => q.dosage)).sum
           unit := p.unit }

/-- The aggregate of one name after further occurrences `occ`, starting from `acc`. -/
def accumulate (acc : Option PeptideStat) : List Peptide → Option PeptideStat
  | [] => acc
  | p :: rest =>
    accumulate
      (some (bumpStat p (acc.getD { count := 0, totalDosage := 0, unit := p.unit }))) rest

/-- The collection is sorted by date ascending (oldest first). -/
def SortedAsc (es : List Entry) : Prop := es.Pairwise (fun a b => newestFirst b a = true)

instance (es : List Entry) : Decidable (SortedAsc es) :=
  inferInstanceAs (Decidable (es.Pairwise (fun a b => newestFirst b a = true)))

/-- An entry with the given date and wellness, energy and pain scores. -/
def scoredEntry (date : String) (wellness energy pain : Int) : Entry :=
  { sampleEntry date date with
    scores := { wellness := wellness, energy := energy, pain := pain, sleep := 5, mobility := 5 } }

/-- Three entries whose wellness scores are 5, 5 and 6. -/
def threeScored : List Entry :=
  [scoredEntry "2024-01-01" 5 1 10, scoredEntry "2024-01-02" 5 2 10,
   scoredEntry "2024-01-03" 6 2 9]

/-- Two entries whose wellness scores are 2 ^ 53 and 1. -/
def hugeScored : List Entry :=
  [scoredEntry "2024-01-01" 9007199254740992 5 5, scoredEntry "2024-01-02" 1 5 5]

/-- An entry dated 2024-01-01 with the given substances. -/
def dosedEntry (id : String) (ps : List Peptide) : Entry :=
  { sampleEntry id "2024-01-01" with peptides := ps }

/-- The substance `{ name: "BPC-157", dosage: 250, unit: "mcg" }`. -/
def bpc : Peptide := { name := "BPC-157", dosage := 250, unit := "mcg", site := "" }

/-- A substance whose name is `constructor`. -/
def constructorPeptide : Peptide :=
  { name := "constructor", dosage := 250, unit := "mcg", site := "" }

/-! ## The analytics window in any engine and time zone -/

/-- What the JavaScript engine and the host's time zone supply to the `Date` calls of
`getFilteredEntries`. Nothing is assumed about them. -/
structure DateEngine where
  /-- The time value of `new Date(str)` in this engine; `none` is an invalid date (`NaN`). -/
  parse : String → Option Int
  /-- ECMAScript `LocalTZA(t, true)`: the offset of local time in effect at the instant `t`. -/
  offsetAtUtc : Int → Int
  /-- ECMAScript `LocalTZA(t, false)`: the offset by which the local time value `t` is read
  back as an instant. -/
  offsetAtLocal : Int → Int

/-- ECMAScript `TimeClip`: a time value beyond 8.64e15 ms from the epoch is `NaN`. -/
def timeClip (t : Int) : Option Int :=
  if |t| ≤ 8640000000000000 then some t else none

/-- The time value after `cutoff.setDate(cutoff.getDate() - n)` on a date whose time value
is `t`, as ECMAScript defines `setDate`: `LocalTime`, then `MakeDate(MakeDay(year, month,
getDate() - n), TimeWithinDay)`, then `UTC` and `TimeClip`. By the definition of `MakeDay`
the day of `(year, month, getDate() - n)` is `Day(LocalTime(t)) - n`. -/
def setDateIn (eng : DateEngine) (t n : Int) : Option Int :=
  let newDate := makeDate (dayOf (t + eng.offsetAtUtc t) - n) (timeWithinDay (t + eng.offsetAtUtc t))
  timeClip (newDate - eng.offsetAtLocal newDate)

/-- The comparator `(a, b) => new Date(a.date) - new Date(b.date)` in the engine `eng`. -/
def compareAscIn (eng : DateEngine) (a b : Entry) : Int :=
  match eng.parse a.date, eng.parse b.date with
  | some ta, some tb => ta - tb
  | _, _ => 0

/-- `getFilteredEntries()` with the engine's own date parsing and the host's time zone;
`now` is the time value of `new Date()`. The comparison `new Date(e.date) >= cutoff` is false
when either side is an invalid date. -/
def getFilteredEntriesIn (eng : DateEngine) (s : State) (now : Int) : List Entry :=
  match s.selectedRange with
  | Range.all => sortBy (compareAscIn eng) s.entries
  | Range.days n =>
    if s.entries.length = 0 then sortBy (compareAscIn eng) s.entries
    else
      sortBy (compareAscIn eng) (s.entries.filter (fun e =>
        match eng.parse e.date, setDateIn eng now n with
        | some t, some cutoff => decide (t ≥ cutoff)
        | _, _ => false))

/-- The engine restricted to date-only strings, in a zone whose offset from UTC is the
constant `tza`: the setting of `getFilteredEntries`. -/
def dateOnlyEngine (tza : Int) : DateEngine :=
  { parse := dateParse, offsetAtUtc := fun _ => tza, offsetAtLocal := fun _ => tza }

/-! ## Backup files

The numbers of the store are JavaScript numbers: besides finite values a field can hold
`Infinity`, `-Infinity` or `NaN` (for instance `parseFloat` of the text `1e999` in
`addPeptide`, or `1e999` in an imported file), and after reading a file it can hold `null`.
Export and import are therefore modelled over records whose numeric fields range over
`NumValue`. -/

/-- A value that a numeric field of the store holds. -/
inductive NumValue where
  | finite (q : ℚ)
  | posInf
  | negInf
  | nan
  | null
deriving DecidableEq

/-- The value read back by `JSON.parse` from what `JSON.stringify` wrote for a numeric
property: a finite number comes back as itself; `Infinity`, `-Infinity` and `NaN` are
written as `null`. -/
def NumValue.json : NumValue → NumValue
  | NumValue.finite q => NumValue.finite q
  | _ => NumValue.null

/-- A substance `{ name, dosage, unit, site }` with the dosage as the program holds it. -/
structure RawPeptide where
  name : String
  dosage : NumValue
  unit : String
  site : String
deriving DecidableEq

/-- An element of `currentPeptides` with the dosage as the program holds it. -/
structure RawCurrent where
  name : String
  dosage : NumValue
  unit : String
  site : String
  administered : Bool
deriving DecidableEq

/-- The object `scores` with the scores as the program holds them. -/
structure RawScores where
  wellness : NumValue
  energy : NumValue
  pain : NumValue
  sleep : NumValue
  mobility : NumValue
deriving DecidableEq

/-- A journal entry with its numbers as the program holds them. -/
structure RawEntry where
  id : String
  date : String
  scores : RawScores
  peptides : List RawPeptide
  notes : String
  createdAt : Option String
  updatedAt : String
deriving DecidableEq

/-- The object `data` of a backup. `entries` is `none` when `data.entries` is missing or is
not an array; `savedPeptides` is `none` when it is missing or falsy, and is an array
otherwise (the non-array case is in `importData` above). -/
structure RawBackup where
  entries : Option (List RawEntry)
  savedPeptides : Option (List RawPeptide)
deriving DecidableEq

/-- The variables `entries`, `savedPeptides`, `currentPeptides` and the toasts shown. -/
structure RawState where
  entries : List RawEntry
  savedPeptides : List RawPeptide
  currentPeptides : List RawCurrent
  toasts : List Toast
deriving DecidableEq

/-- A substance after `JSON.stringify` and `JSON.parse`: strings come back unchanged. -/
def jsonPeptide (p : RawPeptide) : RawPeptide :=
  { p with dosage := p.dosage.json }

/-- An entry after `JSON.stringify` and `JSON.parse`: strings come back unchanged and an
undefined `createdAt`, which is not written, is undefined again. -/
def jsonEntry (e : RawEntry) : RawEntry :=
  { e with
    scores :=
      { wellness := e.scores.wellness.json, energy := e.scores.energy.json
        pain := e.scores.pain.json, sleep := e.scores.sleep.json
        mobility := e.scores.mobility.json }
    peptides := e.peptides.map jsonPeptide }

/-- The object that `JSON.parse(e.target.result)` gives in `importData` for the file that
`exportData` wrote from `data` with `JSON.stringify(data, null, 2)`. -/
def jsonBackup (data : RawBackup) : RawBackup :=
  { entries := data.entries.map (fun es => es.map jsonEntry)
    savedPeptides := data.savedPeptides.map (fun ps => ps.map jsonPeptide) }

/-- The expression `savedPeptides.map(p => ({ ...p, administered: false }))`. -/
def initRawCurrent (ps : List RawPeptide) : List RawCurrent :=
  ps.map (fun p =>
    { name := p.name, dosage := p.dosage, unit := p.unit, site := p.site, administered := false })

/-- The comparator `(a, b) => new Date(b.date) - new Date(a.date)` on raw entries. -/
def compareRawDesc (a b : RawEntry) : Int := (dateDiff b.date a.date).getD 0

/-- `exportData()`: the object `data` that is written to the file (`version` and
`exportDate`, which `importData` does not read, are left out) and the state with the toast.
An array, also the empty one, is truthy. -/
def exportDataRaw (s : RawState) : RawBackup × RawState :=
  ({ entries := some s.entries, savedPeptides := some s.savedPeptides },
   { s with toasts := s.toasts ++ [Toast.exported] })

/-- `mergeEntries(newEntries)` on raw entries. -/
def mergeEntriesRaw (s : RawState) (newEntries : List RawEntry) : RawState :=
  let existingDates := s.entries.map (fun e => e.date)
  let r := newEntries.foldl
    (fun acc entry =>
      if !existingDates.contains entry.date then (acc.1 ++ [entry], acc.2 + 1) else acc)
    (s.entries, 0)
  { s with entries := sortBy compareRawDesc r.1, toasts := s.toasts ++ [Toast.added r.2] }

/-- The part of `importData` that assigns `data.savedPeptides`, shared by both branches. -/
def importPeptidesRaw (s : RawState) (saved : Option (List RawPeptide)) : RawState :=
  match saved with
  | none => { s with toasts := s.toasts ++ [Toast.imported] }
  | some ps =>
    { s with
      savedPeptides := ps, currentPeptides := initRawCurrent ps
      toasts := s.toasts ++ [Toast.imported] }

/-- The `reader.onload` callback of `importData` on raw values. `file` is `none` when
`JSON.parse` throws; `Except.error` is the `catch` branch. -/
def importDataRaw (s : RawState) (file : Option RawBackup) (confirm : Bool) :
    Except RawState RawState :=
  match file with
  | none => Except.error { s with toasts := s.toasts ++ [Toast.importError] }
  | some data =>
    match data.entries with
    | none => Except.error { s with toasts := s.toasts ++ [Toast.importError] }
    | some dataEntries =>
      if s.entries.length > 0 then
        if confirm then
          Except.ok (importPeptidesRaw (mergeEntriesRaw s dataEntries) data.savedPeptides)
        else Except.ok s
      else
        Except.ok (importPeptidesRaw { s with entries := dataEntries } data.savedPeptides)

/-- The numeric value is a finite number or `null`: what a JSON file can hold. -/
def NumValue.Storable (v : NumValue) : Prop := v.json = v

instance (v : NumValue) : Decidable v.Storable :=
  inferInstanceAs (Decidable (v.json = v))

/-- Every dosage of the list is a finite number or `null`. -/
def StorablePeptides (ps : List RawPeptide) : Prop := ∀ p ∈ ps, p.dosage.Storable

/-- Every score and every dosage of the entries is a finite number or `null`. -/
def StorableEntries (es : List RawEntry) : Prop :=
  ∀ e ∈ es, e.scores.wellness.Storable ∧ e.scores.energy.Storable ∧ e.scores.pain.Storable ∧
    e.scores.sleep.Storable ∧ e.scores.mobility.Storable ∧ StorablePeptides e.peptides

/-- A substance of the store seen with its dosage as a `NumValue`. -/
def Peptide.toRaw (p : Peptide) : RawPeptide :=
  { name := p.name, dosage := NumValue.finite p.dosage, unit := p.unit, site := p.site }

/-- An entry of the store seen with its numbers as `NumValue`s. -/
def Entry.toRaw (e : Entry) : RawEntry :=
  { id := e.id, date := e.date
    scores :=
      { wellness := NumValue.finite e.scores.wellness, energy := NumValue.finite e.scores.energy
        pain := NumValue.finite e.scores.pain, sleep := NumValue.finite e.scores.sleep
        mobility := NumValue.finite e.scores.mobility }
    peptides := e.peptides.map Peptide.toRaw
    notes := e.notes, createdAt := e.createdAt, updatedAt := e.updatedAt }

/-- The empty raw store. -/
def emptyRawStore : RawState :=
  { entries := [], savedPeptides := [], currentPeptides := [], toasts := [] }

/-- A raw store whose registry holds one substance with dosage `Infinity` (the value of
`parseFloat("1e999") || 0`). -/
def infiniteDoseStore : RawState :=
  { entries := []
    savedPeptides := [{ name := "X", dosage := NumValue.posInf, unit := "mg", site := "" }]
    currentPeptides :=
      [{ name := "X", dosage := NumValue.posInf, unit := "mg", site := "", administered := true }]
    toasts := [] }

/-- A raw store with one entry (scores 5, one substance of dosage 250) and a registry of
one substance. -/
def finiteRawStore : RawState :=
  { entries :=
      [{ id := "a", date := "2024-01-01"
         scores :=
           { wellness := NumValue.finite 5, energy := NumValue.finite 5
             pain := NumValue.finite 5, sleep := NumValue.finite 5
             mobility := NumValue.finite 5 }
         peptides := [{ name := "BPC-157", dosage := NumValue.finite 250, unit := "mcg", site := "" }]
         notes := "", createdAt := some "t0", updatedAt := "t0" }]
    savedPeptides := [{ name := "BPC-157", dosage := NumValue.finite 250, unit := "mcg", site := "" }]
    currentPeptides := []
    toasts := [] }

/-! ## Sorting lemmas -/

theorem insertBy_perm {α : Type} (cmp : α → α → Int) (a : α) (l : List α) :
    (insertBy cmp a l).Perm (a :: l) := by
  induction l with
  | nil => simp [insertBy]
  | cons b l ih =>
    unfold insertBy
    split
    · exact List.Perm.refl _
    · exact (List.Perm.cons b ih).trans (List.Perm.swap a b l)

theorem sortBy_perm {α : Type} (cmp : α → α → Int) (l : List α) : (sortBy cmp l).Perm l := by
  induction l with
  | nil => simp [sortBy]
  | cons a l ih =>
    unfold sortBy
    exact (insertBy_perm cmp a _).trans (List.Perm.cons a ih)

theorem insertBy_of_chain {α : Type} (cmp : α → α → Int) (a : α) (l : List α)
    (h : List.Chain' (fun x y => cmp x y ≤ 0) (a :: l)) : insertBy cmp a l = a :: l := by
  cases l with
  | nil => rfl
  | cons b l =>
    have hab : cmp a b ≤ 0 := (List.chain'_cons.mp h).1
    simp [insertBy, hab]

theorem sortBy_of_chain {α : Type} (cmp : α → α → Int) (l : List α)
    (h : List.Chain' (fun x y => cmp x y ≤ 0) l) : sortBy cmp l = l := by
  induction l with
  | nil => rfl
  | cons a l ih =>
    unfold sortBy
    rw [ih h.tail]
    exact insertBy_of_chain cmp a l h

theorem chain_insertBy {α : Type} (cmp : α → α → Int)
    (total : ∀ x y, cmp x y ≤ 0 ∨ cmp y x ≤ 0) (a : α) (l : List α)
    (h : List.Chain' (fun x y => cmp x y ≤ 0) l) :
    List.Chain' (fun x y => cmp x y ≤ 0) (insertBy cmp a l) := by
  induction l with
  | nil => simp [insertBy]
  | cons b l ih =>
    unfold insertBy
    split
    · next hab => exact List.chain'_cons.mpr ⟨hab, h⟩
    · next hab =>
      have hba : cmp b a ≤ 0 := (total a b).resolve_left hab
      have ih1 := ih h.tail
      cases l with
      | nil => simpa [insertBy] using hba
      | cons c l =>
        have hbc : cmp b c ≤ 0 := (List.chain'_cons.mp h).1
        unfold insertBy at ih1 ⊢
        split
        · next hac =>
          rw [if_pos hac] at ih1
          exact List.chain'_cons.mpr ⟨hba, ih1⟩
        · next hac =>
          rw [if_neg hac] at ih1
          exact List.chain'_cons.mpr ⟨hbc, ih1⟩

theorem chain_sortBy {α : Type} (cmp : α → α → Int)
    (total : ∀ x y, cmp x y ≤ 0 ∨ cmp y x ≤ 0) (l : List α) :
    List.Chain' (fun x y => cmp x y ≤ 0) (sortBy cmp l) := by
  induction l with
  | nil => simp [sortBy]
  | cons a l ih =>
    unfold sortBy
    exact chain_insertBy cmp total a _ ih

theorem sortBy_idem {α : Type} (cmp : α → α → Int)
    (total : ∀ x y, cmp x y ≤ 0 ∨ cmp y x ≤ 0) (l : List α) :
    sortBy cmp (sortBy cmp l) = sortBy cmp l :=
  sortBy_of_chain cmp _ (chain_sortBy cmp total l)

theorem compareDesc_total (a b : Entry) : compareDesc a b ≤ 0 ∨ compareDesc b a ≤ 0 := by
  unfold compareDesc dateDiff
  cases dateParse a.date <;> cases dateParse b.date <;> simp
  omega

theorem sortDesc_perm (es : List Entry) : (sortDesc es).Perm es := sortBy_perm _ es

theorem sortDesc_idem (es : List Entry) : sortDesc (sortDesc es) = sortDesc es :=
  sortBy_idem _ compareDesc_total es

/-! ## The merge loop -/

theorem foldl_merge (existing : List String) (newEntries : List Entry)
    (acc : List Entry × Nat) :
    newEntries.foldl
      (fun acc entry =>
        if !existing.contains entry.date then (acc.1 ++ [entry], acc.2 + 1) else acc) acc
    = (acc.1 ++ newEntries.filter (fun e => !existing.contains e.date),
       acc.2 + (newEntries.filter (fun e => !existing.contains e.date)).length) := by
  induction newEntries generalizing acc with
  | nil => simp
  | cons e l ih =>
    rw [List.foldl_cons, ih]
    by_cases h : e.date ∈ existing
    · simp [h]
    · simp [h, Nat.add_assoc, Nat.add_comm 1]

theorem mergeLoop_eq (entries newEntries : List Entry) :
    mergeLoop entries newEntries
    = (entries ++ newEntries.filter (fun e => !(dates entries).contains e.date),
       (newEntries.filter (fun e => !(dates entries).contains e.date)).length) := by
  unfold mergeLoop
  simp only [foldl_merge, dates, Nat.zero_add]

theorem mergeEntries_entries (s : State) (newEntries : List Entry) :
    (mergeEntries s newEntries).entries
    = sortDesc (s.entries ++ newEntries.filter (fun e => !(dates s.entries).contains e.date)) := by
  simp [mergeEntries, showToast, mergeLoop_eq]

theorem mergeEntries_toasts (s : State) (newEntries : List Entry) :
    (mergeEntries s newEntries).toasts
    = s.toasts ++
      [Toast.added (newEntries.filter (fun e => !(dates s.entries).contains e.date)).length] := by
  simp [mergeEntries, showToast, mergeLoop_eq]

theorem date_mem_dates {e : Entry} {es : List Entry} (h : e ∈ es) : e.date ∈ dates es :=
  List.mem_map.mpr ⟨e, h, rfl⟩

theorem count_skipped (es newEntries : List Entry) (y : Entry) (h : y.date ∈ dates es) :
    List.count y (newEntries.filter (fun e => !(dates es).contains e.date)) = 0 := by
  apply List.count_eq_zero_of_not_mem
  intro hy
  have := (List.mem_filter.mp hy).2
  simp [h] at this

theorem filter_skipped_all (es newEntries : List Entry)
    (h : ∀ y ∈ newEntries, y.date ∈ dates es) :
    newEntries.filter (fun e => !(dates es).contains e.date) = [] := by
  apply List.filter_eq_nil_iff.mpr
  intro y hy
  simp [h y hy]

/-! ## Claims -/

/-- C1 (code defect): `mergeEntries` does not keep one entry per date when the incoming
sequence itself holds two entries with the same new date. The store holds one entry dated
2024-01-01 (no two entries share a date); the incoming sequence holds two entries dated
2024-01-02; after the merge both are in the collection, which then has two entries dated
2024-01-02. -/
theorem mergeEntries_keeps_incoming_duplicates :
    (dates oneEntryStore.entries).Nodup ∧
    (mergeEntries oneEntryStore twiceSameDate).entries
      = [sampleEntry "b" "2024-01-02", sampleEntry "c" "2024-01-02",
         sampleEntry "a" "2024-01-01"] ∧
    ¬ (dates (mergeEntries oneEntryStore twiceSameDate).entries).Nodup := by
  decide

/-- C2 (code defect): `handleSubmit` in edit mode does not check the submitted date against
the other entries. The store holds entries `a` (2024-01-02) and `b` (2024-01-01); entry `a`
is opened with `editEntry` and submitted with the date 2024-01-01; the resulting collection
has two entries dated 2024-01-01. -/
theorem handleSubmit_edit_duplicates_date :
    (dates twoEntryStore.entries).Nodup ∧
    (editEntry twoEntryStore "a").editingEntryId = some "a" ∧
    dates (handleSubmit (editEntry twoEntryStore "a") formJan1 envYes).entries
      = ["2024-01-01", "2024-01-01"] ∧
    ¬ (dates (handleSubmit (editEntry twoEntryStore "a") formJan1 envYes).entries).Nodup := by
  decide

/-- C3: `mergeEntries` never modifies or removes an existing entry. Every entry of the current
collection occurs in the merged collection as often as before; an entry whose date is
already present is not added (its number of occurrences is unchanged); and when every
incoming date is already present, zero entries are added (the toast reports 0) and the merged
collection is a rearrangement of the current one, equal to it when the current one was
already in sort order. -/
theorem mergeEntries_preserves_existing (s : State) (newEntries : List Entry) :
    (∀ e ∈ s.entries,
      List.count e (mergeEntries s newEntries).entries = List.count e s.entries) ∧
    (∀ y, y.date ∈ dates s.entries →
      List.count y (mergeEntries s newEntries).entries = List.count y s.entries) ∧
    ((∀ y ∈ newEntries, y.date ∈ dates s.entries) →
      (mergeLoop s.entries newEntries).2 = 0 ∧
      (mergeEntries s newEntries).toasts = s.toasts ++ [Toast.added 0] ∧
      (mergeEntries s newEntries).entries.Perm s.entries ∧
      (SortOrder s.entries → (mergeEntries s newEntries).entries = s.entries)) := by
  have key : ∀ y, y.date ∈ dates s.entries →
      List.count y (mergeEntries s newEntries).entries = List.count y s.entries := by
    intro y hy
    rw [mergeEntries_entries, (sortDesc_perm _).count_eq, List.count_append,
      count_skipped _ _ _ hy, Nat.add_zero]
  refine ⟨fun e he => key e (date_mem_dates he), key, ?_⟩
  intro hall
  have hnil := filter_skipped_all s.entries newEntries hall
  refine ⟨?_, ?_, ?_, ?_⟩
  · rw [mergeLoop_eq, hnil]; rfl
  · rw [mergeEntries_toasts, hnil]; rfl
  · rw [mergeEntries_entries, hnil, List.append_nil]; exact sortDesc_perm _
  · intro hsorted
    rw [mergeEntries_entries, hnil, List.append_nil]
    exact sortBy_of_chain _ _ hsorted

/-- Witness for C3: importing an entry dated 2024-01-01 into a store that already holds an
entry for 2024-01-01 adds nothing and leaves the original entry in place. -/
theorem mergeEntries_preserves_existing_witness :
    (mergeLoop oneEntryStore.entries [sampleEntry "z" "2024-01-01"]).2 = 0 ∧
    (mergeEntries oneEntryStore [sampleEntry "z" "2024-01-01"]).entries
      = oneEntryStore.entries :=
  ⟨((mergeEntries_preserves_existing oneEntryStore [sampleEntry "z" "2024-01-01"]).2.2
      (by decide)).1,
   ((mergeEntries_preserves_existing oneEntryStore [sampleEntry "z" "2024-01-01"]).2.2
      (by decide)).2.2.2 (List.chain'_singleton _)⟩

/-! ### Order after a mutation -/

theorem newestFirst_iff {a b : Entry} {ta tb : Int} (ha : dateParse a.date = some ta)
    (hb : dateParse b.date = some tb) : newestFirst a b = true ↔ tb ≤ ta := by
  simp [newestFirst, ha, hb]

theorem compareDesc_valid {a b : Entry} {ta tb : Int} (ha : dateParse a.date = some ta)
    (hb : dateParse b.date = some tb) : compareDesc a b = tb - ta := by
  simp [compareDesc, dateDiff, ha, hb]

theorem insertBy_sortedDesc (a : Entry) (l : List Entry)
    (ha : (dateParse a.date).isSome = true) (hl : ValidDates l) (hs : SortedDesc l) :
    SortedDesc (insertBy compareDesc a l) := by
  obtain ⟨ta, hta⟩ := Option.isSome_iff_exists.mp ha
  induction l with
  | nil => simp [insertBy, SortedDesc]
  | cons b l ih =>
    obtain ⟨tb, htb⟩ := Option.isSome_iff_exists.mp (hl b (List.mem_cons_self b l))
    have hl1 : ValidDates l := fun e he => hl e (List.mem_cons_of_mem b he)
    have hs1 := List.pairwise_cons.mp hs
    unfold insertBy
    split
    · next hab =>
      rw [compareDesc_valid hta htb] at hab
      refine List.pairwise_cons.mpr ⟨?_, hs⟩
      intro x hx
      rcases List.mem_cons.mp hx with rfl | hx
      · exact (newestFirst_iff hta htb).mpr (by omega)
      · obtain ⟨tx, htx⟩ := Option.isSome_iff_exists.mp (hl1 x hx)
        have := (newestFirst_iff htb htx).mp (hs1.1 x hx)
        exact (newestFirst_iff hta htx).mpr (by omega)
    · next hab =>
      rw [compareDesc_valid hta htb] at hab
      refine List.pairwise_cons.mpr ⟨?_, ih hl1 hs1.2⟩
      intro x hx
      rcases List.mem_cons.mp ((insertBy_perm compareDesc a l).subset hx) with rfl | hx
      · exact (newestFirst_iff htb hta).mpr (by omega)
      · exact hs1.1 x hx

theorem sortDesc_sortedDesc (es : List Entry) (h : ValidDates es) : SortedDesc (sortDesc es) := by
  induction es with
  | nil => simp [sortDesc, sortBy, SortedDesc]
  | cons a l ih =>
    have hl : ValidDates l := fun e he => h e (List.mem_cons_of_mem a he)
    have hv : ValidDates (sortBy compareDesc l) :=
      fun e he => hl e ((sortBy_perm compareDesc l).subset he)
    exact insertBy_sortedDesc a _ (h a (List.mem_cons_self a l)) hv (ih hl)

theorem validDates_set (es : List Entry) (i : Nat) (e : Entry) (h : ValidDates es)
    (he : (dateParse e.date).isSome = true) : ValidDates (es.set i e) := by
  intro x hx
  rcases List.mem_or_eq_of_mem_set hx with hx | rfl
  · exact h x hx
  · exact he

theorem validDates_append (es : List Entry) (e : Entry) (h : ValidDates es)
    (he : (dateParse e.date).isSome = true) : ValidDates (es ++ [e]) := by
  intro x hx
  rcases List.mem_append.mp hx with hx | hx
  · exact h x hx
  · rw [List.mem_singleton.mp hx]; exact he

/-! ### The branches of `handleSubmit` -/

theorem handleSubmit_edit (s : State) (f : Form) (env : Env)
    (hed : truthy s.editingEntryId = true) :
    handleSubmit s f env
    = finishSubmit (showToast
        { s with
          entries :=
            if s.entries.findIdx (fun e => e.id == s.editingEntryId.getD "") < s.entries.length
            then s.entries.set (s.entries.findIdx (fun e => e.id == s.editingEntryId.getD ""))
              (buildEntry s f env)
            else s.entries
          editingEntryId := none } Toast.entryUpdated) := by
  simp [handleSubmit, hed]

theorem handleSubmit_append (s : State) (f : Form) (env : Env)
    (hed : truthy s.editingEntryId = false) (hnone : ∀ e ∈ s.entries, e.date ≠ f.date) :
    handleSubmit s f env
    = finishSubmit (showToast { s with entries := s.entries ++ [buildEntry s f env] }
        Toast.entrySaved) := by
  have hidx : ¬ s.entries.findIdx (fun e => e.date == f.date) < s.entries.length := by
    rw [List.findIdx_eq_length_of_false]
    · exact Nat.lt_irrefl _
    · intro e he
      simpa using hnone e he
  simp [handleSubmit, hed, hidx]

theorem handleSubmit_replace (s : State) (f : Form) (env : Env)
    (hed : truthy s.editingEntryId = false)
    (hidx : s.entries.findIdx (fun e => e.date == f.date) < s.entries.length)
    (hc : env.confirm = true) :
    handleSubmit s f env
    = finishSubmit (showToast
        { s with
          entries := s.entries.set (s.entries.findIdx (fun e => e.date == f.date))
            { buildEntry s f env with
              id := (s.entries[s.entries.findIdx (fun e => e.date == f.date)]).id
              createdAt :=
                (s.entries[s.entries.findIdx (fun e => e.date == f.date)]).createdAt } }
        Toast.entrySaved) := by
  simp [handleSubmit, hed, hidx, hc]

theorem handleSubmit_declined (s : State) (f : Form) (env : Env)
    (hed : truthy s.editingEntryId = false)
    (hidx : s.entries.findIdx (fun e => e.date == f.date) < s.entries.length)
    (hc : env.confirm = false) :
    handleSubmit s f env = s := by
  simp [handleSubmit, hed, hidx, hc]

theorem finishSubmit_entries (s : State) : (finishSubmit s).entries = sortDesc s.entries := rfl

/-- Create, confirmed or declined replace, and edit keep the collection newest first. -/
theorem handleSubmit_sortedDesc (s : State) (f : Form) (env : Env) (hv : ValidDates s.entries)
    (hf : (dateParse f.date).isSome = true) (hs : SortedDesc s.entries) :
    SortedDesc (handleSubmit s f env).entries := by
  have hb : (dateParse (buildEntry s f env).date).isSome = true := hf
  by_cases hed : truthy s.editingEntryId = true
  · rw [handleSubmit_edit s f env hed, finishSubmit_entries]
    apply sortDesc_sortedDesc
    show ValidDates (if _ then _ else _)
    split
    · exact validDates_set _ _ _ hv hb
    · exact hv
  · have hed : truthy s.editingEntryId = false := by simpa using hed
    by_cases hidx : s.entries.findIdx (fun e => e.date == f.date) < s.entries.length
    · cases hc : env.confirm
      · rw [handleSubmit_declined s f env hed hidx hc]; exact hs
      · rw [handleSubmit_replace s f env hed hidx hc, finishSubmit_entries]
        exact sortDesc_sortedDesc _ (validDates_set _ _ _ hv hf)
    · have hnone : ∀ e ∈ s.entries, e.date ≠ f.date := by
        intro e he heq
        exact hidx (List.findIdx_lt_length_of_exists ⟨e, he, by simpa using heq⟩)
      rw [handleSubmit_append s f env hed hnone, finishSubmit_entries]
      exact sortDesc_sortedDesc _ (validDates_append _ _ hv hb)

/-- Delete keeps the collection newest first. -/
theorem deleteEntry_sortedDesc (s : State) (id : String) (confirm : Bool)
    (hs : SortedDesc s.entries) : SortedDesc (deleteEntry s id confirm).entries := by
  unfold deleteEntry
  split
  · exact List.Pairwise.sublist (List.filter_sublist _) hs
  · exact hs

/-- Import by merge leaves the collection newest first. -/
theorem mergeEntries_sortedDesc (s : State) (newEntries : List Entry)
    (hv : ValidDates s.entries) (hn : ValidDates newEntries) :
    SortedDesc (mergeEntries s newEntries).entries := by
  rw [mergeEntries_entries]
  apply sortDesc_sortedDesc
  intro e he
  rcases List.mem_append.mp he with he | he
  · exact hv e he
  · exact hn e (List.mem_filter.mp he).1

/-- C4 (code defect): import into an empty store does not sort. The store is empty (hence
sorted); the backup lists two entries with valid dates oldest first (2024-01-01, then
2024-01-03); `importData` completes without error and the collection is the backup's
sequence as it stands, oldest first, which is not sorted by date descending. The other
mutations do sort (`handleSubmit_sortedDesc`, `deleteEntry_sortedDesc`,
`mergeEntries_sortedDesc`). -/
theorem importData_empty_store_not_sorted :
    SortedDesc emptyStore.entries ∧
    ValidDates [sampleEntry "a" "2024-01-01", sampleEntry "b" "2024-01-03"] ∧
    (∃ s1, importData emptyStore (some ascendingBackup) true = Except.ok s1 ∧
      s1.entries = [sampleEntry "a" "2024-01-01", sampleEntry "b" "2024-01-03"] ∧
      ¬ SortedDesc s1.entries) := by
  refine ⟨by decide, by decide, _, rfl, by decide, by decide⟩

/-- An import whose `entries` is missing or is not an array, or whose text is not JSON, ends
in the `catch` branch with the collection and the registry untouched. -/
theorem importData_invalid_entries (s : State) (file : Option Backup) (confirm : Bool)
    (h : file.bind (fun d => d.entries) = none) :
    importData s file confirm = Except.error (showToast s Toast.importError) := by
  unfold importData
  cases file with
  | none => rfl
  | some data =>
    have hd : data.entries = none := h
    simp [hd]

/-- C5 (code defect): an import that ends in an error can leave the state partly changed.
The backup holds one new entry and a `savedPeptides` value that is not an array. Imported
into a store with one entry (answering OK), `importData` ends in the `catch` branch, yet the
entry collection already holds the new entry and `savedPeptides` holds the non-array value.
Imported into the empty store, it ends in the `catch` branch with the collection replaced
and `savedPeptides` overwritten. -/
theorem importData_error_partial_change :
    (∃ s1, importData oneEntryStore (some brokenRegistryBackup) true = Except.error s1 ∧
      s1.toasts.getLast? = some Toast.importError ∧
      s1.entries = [sampleEntry "n" "2024-02-02", sampleEntry "a" "2024-01-01"] ∧
      s1.entries ≠ oneEntryStore.entries ∧
      s1.savedPeptides = PeptideList.other ∧
      s1.savedPeptides ≠ oneEntryStore.savedPeptides) ∧
    (∃ s2, importData emptyStore (some brokenRegistryBackup) true = Except.error s2 ∧
      s2.entries = [sampleEntry "n" "2024-02-02"] ∧
      s2.entries ≠ emptyStore.entries ∧
      s2.savedPeptides ≠ emptyStore.savedPeptides) := by
  refine ⟨⟨_, rfl, ?_, ?_, ?_, ?_, ?_⟩, ⟨_, rfl, ?_, ?_, ?_⟩⟩ <;> decide

/-! ### Submitting the form -/

theorem sortOrder_of_sortedDesc (es : List Entry) (h : SortedDesc es) : SortOrder es := by
  apply List.Pairwise.chain'
  apply List.Pairwise.imp _ h
  intro a b hab
  unfold newestFirst at hab
  cases ha : dateParse a.date with
  | none => simp [ha] at hab
  | some ta =>
    cases hb : dateParse b.date with
    | none => simp [ha, hb] at hab
    | some tb =>
      simp only [ha, hb, decide_eq_true_eq] at hab
      rw [compareDesc_valid ha hb]
      omega

theorem buildEntry_new (s : State) (f : Form) (env : Env)
    (hed : truthy s.editingEntryId = false) :
    buildEntry s f env
    = entryOfForm f (administeredPeptides s) env.newId (some env.now) env.now := by
  simp [buildEntry, entryOfForm, administeredPeptides, hed]

/-- C6 (counterexample): entry `a` is opened for editing and then deleted, so the editing
target is an id that no entry has; submitting the form then ends with the toast
"Entry updated!", that is, it is reported as a successful update and no error is raised. -/
theorem handleSubmit_absent_id_reports_updated :
    staleEditState.editingEntryId = some "a" ∧
    (∀ e ∈ staleEditState.entries, e.id ≠ "a") ∧
    (handleSubmit staleEditState formJan1 envYes).toasts.getLast? = some Toast.entryUpdated := by
  decide

/-- C6 (amended): submitting an edit whose target id no entry has raises no error and leaves
the contents of the collection as they were: the collection is the old one re-sorted (a
rearrangement of it, and identical to it when it was already in sort order), the registry is
untouched and the editing target is cleared. -/
theorem handleSubmit_absent_id_keeps_entries (s : State) (f : Form) (env : Env)
    (hed : truthy s.editingEntryId = true)
    (habs : ∀ e ∈ s.entries, e.id ≠ s.editingEntryId.getD "") :
    (handleSubmit s f env).entries = sortDesc s.entries ∧
    (handleSubmit s f env).entries.Perm s.entries ∧
    (SortOrder s.entries → (handleSubmit s f env).entries = s.entries) ∧
    (handleSubmit s f env).savedPeptides = s.savedPeptides ∧
    (handleSubmit s f env).editingEntryId = none := by
  have hidx : ¬ s.entries.findIdx (fun e => e.id == s.editingEntryId.getD "")
      < s.entries.length := by
    rw [List.findIdx_eq_length_of_false]
    · exact Nat.lt_irrefl _
    · intro e he
      simpa using habs e he
  have hent : (handleSubmit s f env).entries = sortDesc s.entries := by
    rw [handleSubmit_edit s f env hed, finishSubmit_entries]
    simp [showToast, hidx]
  refine ⟨hent, ?_, ?_, ?_, ?_⟩
  · rw [hent]; exact sortDesc_perm _
  · intro hso
    rw [hent]; exact sortBy_of_chain _ _ hso
  · rw [handleSubmit_edit s f env hed]; rfl
  · rw [handleSubmit_edit s f env hed]; rfl

/-- Witness for C6: the stale editing state above; its collection (one entry) is returned
unchanged. -/
theorem handleSubmit_absent_id_keeps_entries_witness :
    (handleSubmit staleEditState formJan1 envYes).entries = staleEditState.entries :=
  (handleSubmit_absent_id_keeps_entries staleEditState formJan1 envYes (by decide)
    (by decide)).2.2.1 (List.chain'_singleton _)

/-- C7 (counterexample): a new entry with wellness 11 submitted to the empty store is
stored and reported as saved; the collection is not left unchanged. -/
theorem handleSubmit_accepts_score_eleven :
    formScore11.wellness = 11 ∧
    (handleSubmit emptyStore formScore11 envYes).entries
      = [entryOfForm formScore11 [] "fresh" (some "t1") "t1"] ∧
    (handleSubmit emptyStore formScore11 envYes).entries ≠ emptyStore.entries ∧
    (handleSubmit emptyStore formScore11 envYes).toasts = [Toast.entrySaved] := by
  decide

/-- C7 (amended): `handleSubmit` does not check the range of the scores. For every
submission of a new entry for a date that has no entry, whatever the five scores are, the
entry is stored with exactly the submitted scores, the collection grows by one, and the
submission is reported as saved. -/
theorem handleSubmit_stores_any_scores (s : State) (f : Form) (env : Env)
    (hed : truthy s.editingEntryId = false) (hnone : ∀ e ∈ s.entries, e.date ≠ f.date) :
    (∃ e ∈ (handleSubmit s f env).entries,
      e.id = env.newId ∧ e.date = f.date ∧
      e.scores = { wellness := f.wellness, energy := f.energy, pain := f.pain,
                   sleep := f.sleep, mobility := f.mobility }) ∧
    (handleSubmit s f env).entries.length = s.entries.length + 1 ∧
    (handleSubmit s f env).toasts = s.toasts ++ [Toast.entrySaved] := by
  have hent : (handleSubmit s f env).entries = sortDesc (s.entries ++ [buildEntry s f env]) := by
    rw [handleSubmit_append s f env hed hnone, finishSubmit_entries]; rfl
  refine ⟨⟨buildEntry s f env, ?_, ?_, rfl, rfl⟩, ?_, ?_⟩
  · rw [hent]
    exact (sortDesc_perm _).symm.subset (by simp)
  · simp [buildEntry, hed]
  · rw [hent, (sortDesc_perm _).length_eq]; simp
  · rw [handleSubmit_append s f env hed hnone]; rfl

/-- Witness for C7: the submission with wellness 11 to the empty store. -/
theorem handleSubmit_stores_any_scores_witness :
    (handleSubmit emptyStore formScore11 envYes).entries.length = emptyStore.entries.length + 1 :=
  (handleSubmit_stores_any_scores emptyStore formScore11 envYes (by decide) (by decide)).2.1

/-! ### The analytics window -/

theorem setDateBack_eq (t tza n : Int) : setDateBack t tza n = t - n * msPerDay := by
  unfold setDateBack utcTime makeDate dayOf timeWithinDay localTime
  have h := Int.ediv_add_emod (t + tza) msPerDay
  linarith

theorem sortAsc_perm (es : List Entry) : (sortAsc es).Perm es := sortBy_perm _ es

/-- C8 (counterexample): the window depends on the time of day. The store holds entries
dated 2024-01-03 and 2024-01-01 and the window is 2 days. At 2024-01-03T12:00Z the entry
dated 2024-01-01, whose calendar date is exactly 2 days before today, is left out and only
the entry dated 2024-01-03 is returned; at 2024-01-03T00:00Z the same entry is included. -/
theorem getFilteredEntries_boundary_depends_on_time :
    windowStore.selectedRange = Range.days 2 ∧
    dateParse "2024-01-01" = some 1704067200000 ∧
    dayOf 1704067200000 = dayOf (localTime noonJan3 0) - 2 ∧
    getFilteredEntries windowStore noonJan3 0 = [sampleEntry "x" "2024-01-03"] ∧
    sampleEntry "y" "2024-01-01" ∉ getFilteredEntries windowStore noonJan3 0 ∧
    dayOf (localTime midnightJan3 0) = dayOf (localTime noonJan3 0) ∧
    getFilteredEntries windowStore midnightJan3 0
      = [sampleEntry "y" "2024-01-01", sampleEntry "x" "2024-01-03"] := by
  decide

theorem compareAscIn_dateOnly (tza : Int) (a b : Entry) :
    compareAscIn (dateOnlyEngine tza) a b = compareAsc a b := by
  simp only [compareAscIn, compareAsc, dateDiff, dateOnlyEngine]
  cases ha : dateParse a.date <;> cases hb : dateParse b.date <;> rfl

theorem setDateIn_dateOnly (tza t n : Int) (h : |setDateBack t tza n| ≤ 8640000000000000) :
    setDateIn (dateOnlyEngine tza) t n = some (setDateBack t tza n) := by
  unfold setDateIn timeClip dateOnlyEngine
  simp only
  exact if_pos h

/-- In a zone with a constant offset, with date-only strings and a cutoff inside the range
of `Date`, the general function is `getFilteredEntries`. -/
theorem getFilteredEntriesIn_dateOnly (s : State) (now tza : Int)
    (h : ∀ n, s.selectedRange = Range.days n → |setDateBack now tza n| ≤ 8640000000000000) :
    getFilteredEntriesIn (dateOnlyEngine tza) s now = getFilteredEntries s now tza := by
  have hcmp : compareAscIn (dateOnlyEngine tza) = compareAsc := by
    funext a b
    exact compareAscIn_dateOnly tza a b
  unfold getFilteredEntriesIn getFilteredEntries sortAsc
  rw [hcmp]
  cases hr : s.selectedRange with
  | all => rfl
  | days n =>
    simp only [setDateIn_dateOnly tza now n (h n hr)]
    have hf : (fun e : Entry =>
          match (dateOnlyEngine tza).parse e.date, some (setDateBack now tza n) with
          | some t, some cutoff => decide (t ≥ cutoff)
          | _, _ => false)
        = (fun e : Entry =>
          match dateParse e.date with
          | some t => decide (t ≥ setDateBack now tza n)
          | none => false) := by
      funext e
      show (match dateParse e.date, some (setDateBack now tza n) with
          | some t, some cutoff => decide (t ≥ cutoff)
          | _, _ => false) = _
      cases dateParse e.date <;> rfl
    rw [hf]

theorem makeDate_parts (d r x : Int) (hr : r = x % msPerDay) :
    dayOf (makeDate d r) = d ∧ timeWithinDay (makeDate d r) = r := by
  unfold dayOf timeWithinDay makeDate msPerDay at *
  omega

theorem makeDate_of_parts (l : Int) : makeDate (dayOf l) (timeWithinDay l) = l := by
  unfold dayOf timeWithinDay makeDate msPerDay
  omega

/-- The cutoff of `getFilteredEntries`, described by its local reading: `setDateIn` gives
the instant `c` exactly when `c` is inside the range of `Date` and is the instant of the
local time value `l` that lies `n` days before today's local date at the current local time
of day. -/
theorem setDateIn_eq_some (eng : DateEngine) (t n c : Int) :
    setDateIn eng t n = some c ↔
      ∃ l, dayOf l = dayOf (t + eng.offsetAtUtc t) - n ∧
        timeWithinDay l = timeWithinDay (t + eng.offsetAtUtc t) ∧
        c = l - eng.offsetAtLocal l ∧ |c| ≤ 8640000000000000 := by
  unfold setDateIn timeClip
  simp only
  constructor
  · intro h
    split at h
    · next hc =>
      injection h with h
      obtain ⟨h1, h2⟩ := makeDate_parts (dayOf (t + eng.offsetAtUtc t) - n)
        (timeWithinDay (t + eng.offsetAtUtc t)) (t + eng.offsetAtUtc t) rfl
      exact ⟨_, h1, h2, h.symm, h ▸ hc⟩
    · cases h
  · rintro ⟨l, h1, h2, h3, h4⟩
    have hl : makeDate (dayOf (t + eng.offsetAtUtc t) - n)
        (timeWithinDay (t + eng.offsetAtUtc t)) = l := by
      rw [← h1, ← h2]
      exact makeDate_of_parts l
    rw [hl, ← h3, if_pos h4]

/-- C8 (amended): for a day-count window `n`, in every engine and time zone,
`getFilteredEntries` returns exactly the entries whose date the engine reads as a valid
instant `t` that is at or after the cutoff instant `c`. The cutoff is inside the range of
`Date` and is the instant of the local time value `l` that lies `n` days before today's
local date at the current local time of day: the time of day is kept, not cut off, and the
comparison is between instants and inclusive. When the cutoff is outside the range of `Date`
nothing is returned. -/
theorem getFilteredEntriesIn_mem (eng : DateEngine) (s : State) (now n : Int) (e : Entry)
    (h : s.selectedRange = Range.days n) :
    e ∈ getFilteredEntriesIn eng s now ↔
      e ∈ s.entries ∧ ∃ t c l,
        eng.parse e.date = some t ∧
        dayOf l = dayOf (now + eng.offsetAtUtc now) - n ∧
        timeWithinDay l = timeWithinDay (now + eng.offsetAtUtc now) ∧
        c = l - eng.offsetAtLocal l ∧ |c| ≤ 8640000000000000 ∧ c ≤ t := by
  have hcut : ∀ t, (∃ c l, eng.parse e.date = some t ∧
        dayOf l = dayOf (now + eng.offsetAtUtc now) - n ∧
        timeWithinDay l = timeWithinDay (now + eng.offsetAtUtc now) ∧
        c = l - eng.offsetAtLocal l ∧ |c| ≤ 8640000000000000 ∧ c ≤ t) ↔
      eng.parse e.date = some t ∧ ∃ c, setDateIn eng now n = some c ∧ c ≤ t := by
    intro t
    constructor
    · rintro ⟨c, l, hp, h1, h2, h3, h4, h5⟩
      exact ⟨hp, c, (setDateIn_eq_some eng now n c).mpr ⟨l, h1, h2, h3, h4⟩, h5⟩
    · rintro ⟨hp, c, hc, h5⟩
      obtain ⟨l, h1, h2, h3, h4⟩ := (setDateIn_eq_some eng now n c).mp hc
      exact ⟨c, l, hp, h1, h2, h3, h4, h5⟩
  simp only [hcut]
  unfold getFilteredEntriesIn
  rw [h]
  by_cases hlen : s.entries.length = 0
  · have hnil : s.entries = [] := List.length_eq_zero.mp hlen
    simp [hnil, sortBy]
  · simp only [if_neg hlen]
    rw [(sortBy_perm _ _).mem_iff, List.mem_filter]
    apply and_congr_right
    intro _
    cases hd : eng.parse e.date with
    | none => simp
    | some t =>
      cases hc : setDateIn eng now n with
      | none => simp
      | some c => simp

/-- Witness for C8: in UTC with date-only strings, at 2024-01-03T12:00Z with a window of
2 days, the entry dated 2024-01-03 is returned: the cutoff is 2024-01-01T12:00Z. -/
theorem getFilteredEntriesIn_mem_witness :
    sampleEntry "x" "2024-01-03" ∈ getFilteredEntriesIn (dateOnlyEngine 0) windowStore noonJan3 :=
  (getFilteredEntriesIn_mem (dateOnlyEngine 0) windowStore noonJan3 2
      (sampleEntry "x" "2024-01-03") rfl).mpr
    ⟨by decide, 1704240000000, 1704110400000, 1704110400000,
      by decide, by decide, by decide, by decide, by decide, by decide⟩

/-! ### Merging twice -/

theorem dates_present_after_merge (s : State) (newEntries : List Entry) :
    ∀ y ∈ newEntries, y.date ∈ dates (mergeEntries s newEntries).entries := by
  intro y hy
  rw [mergeEntries_entries]
  by_cases hd : y.date ∈ dates s.entries
  · obtain ⟨e, he, hey⟩ := List.mem_map.mp hd
    exact List.mem_map.mpr
      ⟨e, (sortDesc_perm _).symm.subset (List.mem_append_left _ he), hey⟩
  · apply date_mem_dates
    apply (sortDesc_perm _).symm.subset
    apply List.mem_append_right
    exact List.mem_filter.mpr ⟨hy, by simpa using hd⟩

/-- C9: merging the same incoming sequence a second time adds zero entries (the counter
`added` is 0 and the toast reports 0) and leaves the collection, contents and order,
exactly as the first merge left it. -/
theorem mergeEntries_twice (s : State) (newEntries : List Entry) :
    (mergeLoop (mergeEntries s newEntries).entries newEntries).2 = 0 ∧
    (mergeEntries (mergeEntries s newEntries) newEntries).entries
      = (mergeEntries s newEntries).entries ∧
    (mergeEntries (mergeEntries s newEntries) newEntries).toasts
      = (mergeEntries s newEntries).toasts ++ [Toast.added 0] := by
  have hnil := filter_skipped_all (mergeEntries s newEntries).entries newEntries
    (dates_present_after_merge s newEntries)
  refine ⟨?_, ?_, ?_⟩
  · rw [mergeLoop_eq, hnil]; rfl
  · rw [mergeEntries_entries (mergeEntries s newEntries), hnil, List.append_nil,
      mergeEntries_entries s, sortDesc_idem]
  · rw [mergeEntries_toasts (mergeEntries s newEntries), hnil]; rfl

/-! ### Replacing and appending -/

/-- C10: when a new entry is submitted (no editing target) for a date that already has an
entry and the replacement is confirmed, the first entry `old` with that date is replaced by
the entry with `old.id`, `old.createdAt` and the submitted date, scores, substances and
notes: the collection is the old one with that position overwritten, re-sorted, so it has
the same number of entries and every other entry is unchanged. When no entry has that date,
the collection is a rearrangement of the old one plus the new entry (fresh id, submitted
fields). -/
theorem handleSubmit_replace_or_append (s : State) (f : Form) (env : Env)
    (hed : truthy s.editingEntryId = false) :
    ((∃ e ∈ s.entries, e.date = f.date) → env.confirm = true →
      ∃ (i : Nat) (old : Entry),
        s.entries[i]? = some old ∧ old.date = f.date ∧
        (∀ j e, j < i → s.entries[j]? = some e → e.date ≠ f.date) ∧
        (handleSubmit s f env).entries
          = sortDesc (s.entries.set i
              (entryOfForm f (administeredPeptides s) old.id old.createdAt env.now)) ∧
        (handleSubmit s f env).entries.Perm (s.entries.set i
              (entryOfForm f (administeredPeptides s) old.id old.createdAt env.now)) ∧
        entryOfForm f (administeredPeptides s) old.id old.createdAt env.now
          ∈ (handleSubmit s f env).entries ∧
        (handleSubmit s f env).entries.length = s.entries.length) ∧
    ((∀ e ∈ s.entries, e.date ≠ f.date) →
      (handleSubmit s f env).entries.Perm
        (s.entries ++ [entryOfForm f (administeredPeptides s) env.newId (some env.now) env.now]))
    := by
  constructor
  · intro hex hc
    have hidx : s.entries.findIdx (fun e => e.date == f.date) < s.entries.length := by
      obtain ⟨e, he, hd⟩ := hex
      exact List.findIdx_lt_length_of_exists ⟨e, he, by simpa using hd⟩
    have hent := congrArg State.entries (handleSubmit_replace s f env hed hidx hc)
    rw [finishSubmit_entries] at hent
    have hold : (s.entries[s.entries.findIdx (fun e => e.date == f.date)]).date = f.date := by
      have := @List.findIdx_getElem _ (fun e : Entry => e.date == f.date) s.entries hidx
      simpa using this
    have hnew : ({ buildEntry s f env with
          id := (s.entries[s.entries.findIdx (fun e => e.date == f.date)]).id
          createdAt := (s.entries[s.entries.findIdx (fun e => e.date == f.date)]).createdAt }
          : Entry)
        = entryOfForm f (administeredPeptides s)
            (s.entries[s.entries.findIdx (fun e => e.date == f.date)]).id
            (s.entries[s.entries.findIdx (fun e => e.date == f.date)]).createdAt env.now := by
      rw [buildEntry_new s f env hed]; rfl
    simp only [showToast, hnew] at hent
    refine ⟨_, s.entries[s.entries.findIdx (fun e => e.date == f.date)],
      List.getElem?_eq_getElem hidx, hold, ?_, hent, ?_, ?_, ?_⟩
    · intro j e hj hje heq
      have hjl : j < s.entries.length := Nat.lt_trans hj hidx
      have hnot := List.not_of_lt_findIdx hj
      rw [List.getElem?_eq_getElem hjl] at hje
      injection hje with hje
      rw [hje] at hnot
      simp [heq] at hnot
    · rw [hent]; exact sortDesc_perm _
    · rw [hent]
      exact (sortDesc_perm _).symm.subset (List.mem_set _ _ hidx _)
    · rw [hent, (sortDesc_perm _).length_eq, List.length_set]
  · intro hnone
    have hent := congrArg State.entries (handleSubmit_append s f env hed hnone)
    rw [finishSubmit_entries] at hent
    simp only [showToast, buildEntry_new s f env hed] at hent
    rw [hent]
    exact sortDesc_perm _

/-- Witness for C10: a form for 2024-01-01 submitted to the two-entry store, replacement
confirmed: entry `b`, which holds that date, keeps its id and `createdAt` and takes the
submitted scores and notes; entry `a` is unchanged. -/
theorem handleSubmit_replace_or_append_witness :
    (handleSubmit twoEntryStore formJan1 envYes).entries
      = [sampleEntry "a" "2024-01-02", entryOfForm formJan1 [] "b" (some "t0") "t1"] ∧
    ∃ (i : Nat) (old : Entry), twoEntryStore.entries[i]? = some old ∧
      (handleSubmit twoEntryStore formJan1 envYes).entries.length
        = twoEntryStore.entries.length :=
  ⟨by decide,
   (handleSubmit_replace_or_append twoEntryStore formJan1 envYes (by decide)).1
      ⟨sampleEntry "b" "2024-01-01", by decide, by decide⟩ (by decide)
    |>.elim fun i hi => hi.elim fun old h => ⟨i, old, h.1, h.2.2.2.2.2.2⟩⟩

/-! ### Alignment of the transient list with the registry -/

theorem map_set_same {α β : Type} (f : α → β) (l : List α) (i : Nat) (a : α)
    (h : ∀ b, l[i]? = some b → f a = f b) : (l.set i a).map f = l.map f := by
  induction l generalizing i with
  | nil => rfl
  | cons x l ih =>
    cases i with
    | zero =>
      have := h x (by simp)
      simp [this]
    | succ i =>
      simp only [List.set_cons_succ, List.map_cons]
      rw [ih i (fun b hb => h b (by simpa using hb))]

theorem map_eraseIdx_eq {α β : Type} (f : α → β) (l : List α) (i : Nat) :
    (l.eraseIdx i).map f = (l.map f).eraseIdx i := by
  induction l generalizing i with
  | nil => rfl
  | cons x l ih =>
    cases i with
    | zero => rfl
    | succ i => simp [List.eraseIdx_cons_succ, ih]

theorem map_splice1 {α β : Type} (f : α → β) (l : List α) (index : Int) :
    (splice1 l index).map f = splice1 (l.map f) index := by
  simp [splice1, map_eraseIdx_eq]

theorem toPeptide_initCurrent (ps : List Peptide) :
    (initCurrent ps).map CurrentPeptide.toPeptide = ps := by
  unfold initCurrent
  rw [List.map_map]
  exact List.map_id _

theorem aligned_loadData (se : Option (List Entry)) (sp : Option PeptideList) (s : State)
    (h : loadData se sp = some s) : Aligned s := by
  unfold loadData at h
  cases hsp : sp.getD (PeptideList.list defaultPeptides) with
  | list ps =>
    simp only [hsp] at h
    injection h with h
    subst h
    simp [Aligned, toPeptide_initCurrent]
  | other => simp [hsp] at h

theorem aligned_togglePeptide (s : State) (index : Int) (h : Aligned s) :
    Aligned (togglePeptide s index) := by
  unfold togglePeptide
  split
  · split
    · next p hp =>
      unfold Aligned at h ⊢
      simp only
      rw [map_set_same]
      · exact h
      · intro b hb
        rw [hp] at hb
        injection hb with hb
        subst hb
        rfl
    · exact h
  · exact h

theorem aligned_removePeptide (s : State) (index : Int) (h : Aligned s) :
    Aligned (removePeptide s index) := by
  unfold Aligned at h
  unfold removePeptide
  rw [h]
  simp [Aligned, map_splice1]

theorem aligned_addPeptide (s : State) (name : String) (dosage : ℚ) (unit site : String)
    (h : Aligned s) : Aligned (addPeptide s name dosage unit site) := by
  unfold Aligned at h
  unfold addPeptide
  split
  · exact h
  · rw [h]
    simp [Aligned, CurrentPeptide.toPeptide]

theorem aligned_resetForm (s : State) (h : Aligned s) : Aligned (resetForm s) := by
  unfold Aligned at h ⊢
  simp only [resetForm, List.map_map]
  exact h

theorem aligned_editEntry (s : State) (id : String) (h : Aligned s) :
    Aligned (editEntry s id) := by
  unfold editEntry
  split
  · exact h
  · unfold Aligned at h ⊢
    simp only [showToast, List.map_map]
    exact h

theorem aligned_importPeptides (s s1 : State) (saved : Option PeptideList) (h : Aligned s)
    (hok : importPeptides s saved = Except.ok s1) : Aligned s1 := by
  unfold importPeptides at hok
  split at hok
  · injection hok with hok
    subst hok
    exact h
  · injection hok with hok
    subst hok
    simp [Aligned, showToast, toPeptide_initCurrent]
  · cases hok

theorem aligned_importData (s s1 : State) (file : Option Backup) (confirm : Bool)
    (h : Aligned s) (hok : importData s file confirm = Except.ok s1) : Aligned s1 := by
  unfold importData at hok
  split at hok
  · cases hok
  · split at hok
    · cases hok
    · next data dataEntries _ =>
      split at hok
      · split at hok
        · have hm : Aligned (mergeEntries s dataEntries) := h
          exact aligned_importPeptides _ _ _ hm hok
        · injection hok with hok
          subst hok
          exact h
      · have hm : Aligned { s with entries := dataEntries } := h
        exact aligned_importPeptides _ _ _ hm hok

theorem aligned_finishSubmit (s : State) (h : Aligned s) : Aligned (finishSubmit s) :=
  aligned_resetForm { s with entries := sortDesc s.entries } h

theorem aligned_handleSubmit (s : State) (f : Form) (env : Env) (h : Aligned s) :
    Aligned (handleSubmit s f env) := by
  by_cases hed : truthy s.editingEntryId = true
  · rw [handleSubmit_edit s f env hed]
    exact aligned_finishSubmit _ h
  · have hed : truthy s.editingEntryId = false := by simpa using hed
    by_cases hidx : s.entries.findIdx (fun e => e.date == f.date) < s.entries.length
    · cases hc : env.confirm
      · rw [handleSubmit_declined s f env hed hidx hc]; exact h
      · rw [handleSubmit_replace s f env hed hidx hc]
        exact aligned_finishSubmit _ h
    · have hnone : ∀ e ∈ s.entries, e.date ≠ f.date := by
        intro e he heq
        exact hidx (List.findIdx_lt_length_of_exists ⟨e, he, by simpa using heq⟩)
      rw [handleSubmit_append s f env hed hnone]
      exact aligned_finishSubmit _ h

theorem aligned_deleteEntry (s : State) (id : String) (confirm : Bool) (h : Aligned s) :
    Aligned (deleteEntry s id confirm) := by
  unfold deleteEntry
  split
  · exact h
  · exact h

theorem aligned_step (s s1 : State) (a : Action) (h : Aligned s) (hs : step s a = some s1) :
    Aligned s1 := by
  cases a with
  | togglePeptide index =>
    injection hs with hs; subst hs; exact aligned_togglePeptide s index h
  | addPeptide name dosage unit site =>
    injection hs with hs; subst hs; exact aligned_addPeptide s name dosage unit site h
  | removePeptide index =>
    injection hs with hs; subst hs; exact aligned_removePeptide s index h
  | resetForm => injection hs with hs; subst hs; exact aligned_resetForm s h
  | editEntry id => injection hs with hs; subst hs; exact aligned_editEntry s id h
  | importData file confirm =>
    unfold step at hs
    cases hr : importData s file confirm with
    | ok s2 =>
      simp only [hr] at hs
      injection hs with hs
      subst hs
      exact aligned_importData s s2 file confirm h hr
    | error s2 => simp [hr] at hs
  | handleSubmit f env =>
    injection hs with hs; subst hs; exact aligned_handleSubmit s f env h
  | deleteEntry id confirm =>
    injection hs with hs; subst hs; exact aligned_deleteEntry s id confirm h

theorem aligned_run (actions : List Action) (s s1 : State) (h : Aligned s)
    (hr : run s actions = some s1) : Aligned s1 := by
  induction actions generalizing s with
  | nil =>
    injection hr with hr
    subst hr
    exact h
  | cons a rest ih =>
    unfold run at hr
    cases hs : step s a with
    | none => simp [hs] at hr
    | some s2 =>
      simp only [hs] at hr
      exact ih s2 (aligned_step s s2 a h hs) hr

/-- C15: in every state reached from a completed `loadData` by any sequence of
`togglePeptide`, `addPeptide` (any name), `removePeptide` (any index, in range or not),
`resetForm`, `editEntry`, successful `importData` (and also `handleSubmit` and
`deleteEntry`), the registry `savedPeptides` is an array of the same length as
`currentPeptides`, and the two agree at every index on name, dosage, unit and site. -/
theorem registry_aligned (storedEntries : Option (List Entry))
    (storedPeptides : Option PeptideList) (s0 s : State) (actions : List Action)
    (hload : loadData storedEntries storedPeptides = some s0)
    (hrun : run s0 actions = some s) :
    ∃ ps, s.savedPeptides = PeptideList.list ps ∧
      s.currentPeptides.length = ps.length ∧
      ∀ (i : Nat) (p : Peptide), ps[i]? = some p →
        ∃ c, s.currentPeptides[i]? = some c ∧
          c.name = p.name ∧ c.dosage = p.dosage ∧ c.unit = p.unit ∧ c.site = p.site := by
  have hal : Aligned s :=
    aligned_run actions s0 s (aligned_loadData storedEntries storedPeptides s0 hload) hrun
  refine ⟨_, hal, by simp, ?_⟩
  intro i p hp
  rw [List.getElem?_map] at hp
  cases hc : s.currentPeptides[i]? with
  | none => simp [hc] at hp
  | some c =>
    simp only [hc, Option.map_some', Option.some.injEq] at hp
    subst hp
    exact ⟨c, rfl, rfl, rfl, rfl, rfl⟩

/-- Witness for C15: after loading the default registry and the sample run (add, toggle,
remove with indices in and out of range, import, edit, reset) the registry is an array of
the same length as the transient list. -/
theorem registry_aligned_witness :
    loadData none none = some loadedDefault ∧
    run loadedDefault sampleRun = some sampleRunEnd ∧
    ∃ ps, sampleRunEnd.savedPeptides = PeptideList.list ps ∧
      sampleRunEnd.currentPeptides.length = ps.length :=
  ⟨rfl, by decide,
    (registry_aligned none none loadedDefault sampleRunEnd sampleRun rfl (by decide)).elim
      fun ps h => ⟨ps, h.1, h.2.1⟩⟩

/-! ### Summary cards -/

theorem roundHalfEven_abs (m : ℚ) : |((roundHalfEven m : Int) : ℚ) - m| ≤ 1 / 2 := by
  have h1 := Int.floor_le m
  have h2 := Int.lt_floor_add_one m
  unfold roundHalfEven
  split
  · rw [abs_le]; constructor <;> linarith
  · split
    · push_cast; rw [abs_le]; constructor <;> linarith
    · split
      · rw [abs_le]; constructor <;> linarith
      · push_cast; rw [abs_le]; constructor <;> linarith

theorem roundHalfEven_intCast (z : Int) : roundHalfEven (z : ℚ) = z := by
  unfold roundHalfEven
  simp

theorem two_zpow_pos (e : Int) : (0 : ℚ) < (2 : ℚ) ^ e := zpow_pos (by norm_num) e

theorem ulpExp_of_normal (x : ℚ) (hx : (2 : ℚ) ^ (-1022 : Int) ≤ x) :
    ulpExp x = Int.log 2 x - 52 := by
  have hpos : (0 : ℚ) < x := lt_of_lt_of_le (two_zpow_pos _) hx
  unfold ulpExp
  rw [abs_of_pos hpos]
  have h0 : (-1022 : Int) ≤ Int.log 2 x :=
    (Int.zpow_le_iff_le_log (b := 2) (by norm_num) hpos).mp (by simpa using hx)
  omega

theorem roundDouble_error (x : ℚ) (hx : (2 : ℚ) ^ (-1022 : Int) ≤ x) :
    |roundDouble x - x| ≤ x / (2 : ℚ) ^ (53 : ℕ) := by
  have hpos : (0 : ℚ) < x := lt_of_lt_of_le (two_zpow_pos _) hx
  have hE := ulpExp_of_normal x hx
  have hlog : (2 : ℚ) ^ (Int.log 2 x) ≤ x := by
    have := Int.zpow_log_le_self (b := 2) (by norm_num) hpos
    simpa using this
  have hp := two_zpow_pos (ulpExp x)
  have hr := roundHalfEven_abs (x / (2 : ℚ) ^ ulpExp x)
  have hrw : roundDouble x - x
      = (((roundHalfEven (x / (2 : ℚ) ^ ulpExp x) : Int) : ℚ) - x / (2 : ℚ) ^ ulpExp x)
        * (2 : ℚ) ^ ulpExp x := by
    unfold roundDouble
    field_simp
  rw [hrw, abs_mul, abs_of_pos hp]
  have hsplit : (2 : ℚ) ^ (Int.log 2 x) = (2 : ℚ) ^ ulpExp x * (2 : ℚ) ^ (52 : ℕ) := by
    rw [hE, ← zpow_natCast, ← zpow_add₀ (by norm_num : (2 : ℚ) ≠ 0)]
    congr 1
    omega
  calc |((roundHalfEven (x / (2 : ℚ) ^ ulpExp x) : Int) : ℚ) - x / (2 : ℚ) ^ ulpExp x|
        * (2 : ℚ) ^ ulpExp x
      ≤ 1 / 2 * (2 : ℚ) ^ ulpExp x := mul_le_mul_of_nonneg_right hr hp.le
    _ = (2 : ℚ) ^ ulpExp x * (2 : ℚ) ^ (52 : ℕ) / (2 : ℚ) ^ (53 : ℕ) := by
        norm_num
        ring
    _ ≤ x / (2 : ℚ) ^ (53 : ℕ) := by
        rw [← hsplit]
        exact div_le_div_of_nonneg_right hlog (by positivity)

theorem roundDouble_of_multiple (x : ℚ) (z : Int) (h : x = (z : ℚ) * (2 : ℚ) ^ ulpExp x) :
    roundDouble x = x := by
  have hp := two_zpow_pos (ulpExp x)
  have hq : x / (2 : ℚ) ^ ulpExp x = (z : ℚ) := by
    rw [eq_comm, eq_div_iff hp.ne']
    exact h.symm
  unfold roundDouble
  rw [hq, roundHalfEven_intCast]
  exact h.symm

theorem roundDouble_natCast (k : ℕ) (hk : k ≤ 2 ^ 53) : roundDouble (k : ℚ) = (k : ℚ) := by
  rcases Nat.eq_zero_or_pos k with rfl | hpos
  · simp [roundDouble, roundHalfEven]
  · have h1 : (1 : ℚ) ≤ (k : ℚ) := by exact_mod_cast hpos
    have hn : (2 : ℚ) ^ (-1022 : Int) ≤ (k : ℚ) := by
      refine le_trans ?_ h1
      exact zpow_le_one_of_nonpos₀ (by norm_num) (by norm_num)
    have hE := ulpExp_of_normal (k : ℚ) hn
    rw [Int.log_natCast] at hE
    rcases Nat.lt_or_ge k (2 ^ 53) with hlt | hge
    · have hlog : Nat.log 2 k < 53 := Nat.log_lt_of_lt_pow (by omega) hlt
      obtain ⟨j, hj⟩ : ∃ j : ℕ, ulpExp (k : ℚ) = -(j : Int) := ⟨52 - Nat.log 2 k, by omega⟩
      apply roundDouble_of_multiple _ ((k * 2 ^ j : ℕ) : Int)
      rw [hj, zpow_neg, zpow_natCast]
      push_cast
      field_simp
    · have hk53 : k = 2 ^ 53 := le_antisymm hk hge
      have hlog : Nat.log 2 k = 53 := by
        rw [hk53]
        exact Nat.log_pow (by norm_num) 53
      have hE1 : ulpExp (k : ℚ) = 1 := by omega
      apply roundDouble_of_multiple _ ((2 ^ 52 : ℕ) : Int)
      rw [hE1, hk53]
      norm_num

theorem toDouble_natCast (k : ℕ) (hk : k ≤ 2 ^ 53) : toDouble (k : ℚ) = some (k : ℚ) := by
  unfold toDouble
  rw [roundDouble_natCast k hk, if_pos]
  rw [abs_of_nonneg (by positivity)]
  have h1 : (k : ℚ) ≤ (2 : ℚ) ^ (53 : ℕ) := by exact_mod_cast hk
  have h2 : (2 : ℚ) ^ (53 : ℕ) < (2 : ℚ) ^ (1024 : ℕ) := by norm_num
  linarith

theorem foldl_addDouble (B : ℕ) (l : List Int) (a : ℕ)
    (hl : ∀ v ∈ l, 0 ≤ v ∧ v ≤ (B : Int)) (hB : a + B * l.length ≤ 2 ^ 53) :
    l.foldl (fun (a : Option ℚ) (b : Int) => addDouble a (toDouble (b : ℚ))) (some (a : ℚ))
    = some (((a : Int) + l.sum : Int) : ℚ) := by
  induction l generalizing a with
  | nil => simp
  | cons v l ih =>
    obtain ⟨hv0, hvB⟩ := hl v (List.mem_cons_self v l)
    obtain ⟨n, rfl⟩ := Int.eq_ofNat_of_zero_le hv0
    have hnB : n ≤ B := by exact_mod_cast hvB
    simp only [List.length_cons] at hB
    have hB' : a + B * l.length + B ≤ 2 ^ 53 := by
      have : B * (l.length + 1) = B * l.length + B := by ring
      omega
    have hn53 : n ≤ 2 ^ 53 := by omega
    have han : a + n ≤ 2 ^ 53 := by omega
    rw [List.foldl_cons]
    have hstep : addDouble (some (a : ℚ)) (toDouble (((n : ℕ) : Int) : ℚ))
        = some (((a + n : ℕ)) : ℚ) := by
      have : (((n : ℕ) : Int) : ℚ) = (n : ℚ) := by norm_cast
      rw [this, toDouble_natCast n hn53]
      show toDouble ((a : ℚ) + (n : ℚ)) = _
      have : (a : ℚ) + (n : ℚ) = ((a + n : ℕ) : ℚ) := by push_cast; ring
      rw [this, toDouble_natCast (a + n) han]
    rw [hstep, ih (a + n) (fun w hw => hl w (List.mem_cons_of_mem _ hw)) (by omega)]
    simp only [List.sum_cons]
    congr 1
    push_cast
    ring

theorem tie_gap (S : Int) (L : ℕ) (hL : 0 < L) (j : Int)
    (hne : (S : ℚ) / (L : ℚ) ≠ (2 * (j : ℚ) + 1) / 20) :
    1 / (20 * (L : ℚ)) ≤ |(S : ℚ) / (L : ℚ) - (2 * (j : ℚ) + 1) / 20| := by
  have hLq : (0 : ℚ) < (L : ℚ) := by exact_mod_cast hL
  have hrw : (S : ℚ) / (L : ℚ) - (2 * (j : ℚ) + 1) / 20
      = (((20 * S - (2 * j + 1) * L : Int)) : ℚ) / (20 * (L : ℚ)) := by
    push_cast
    field_simp
    ring
  have hz : (20 * S - (2 * j + 1) * L : Int) ≠ 0 := by
    intro h0
    apply hne
    have : (S : ℚ) / (L : ℚ) - (2 * (j : ℚ) + 1) / 20 = 0 := by
      rw [hrw, h0]
      simp
    linarith
  rw [hrw, abs_div, abs_of_pos (by positivity : (0 : ℚ) < 20 * (L : ℚ))]
  apply div_le_div_of_nonneg_right _ (by positivity)
  have : (1 : Int) ≤ |20 * S - (2 * j + 1) * L| := Int.one_le_abs hz
  have h2 : ((1 : Int) : ℚ) ≤ ((|20 * S - (2 * j + 1) * L| : Int) : ℚ) := by exact_mod_cast this
  simpa [Int.cast_abs] using h2


theorem sum_bounds (B : ℕ) (l : List Int) (hl : ∀ v ∈ l, 0 ≤ v ∧ v ≤ (B : Int)) :
    0 ≤ l.sum ∧ l.sum ≤ (B : Int) * l.length := by
  induction l with
  | nil => simp
  | cons v l ih =>
    obtain ⟨h0, h1⟩ := ih (fun w hw => hl w (List.mem_cons_of_mem _ hw))
    obtain ⟨hv0, hvB⟩ := hl v (List.mem_cons_self v l)
    simp only [List.sum_cons, List.length_cons]
    push_cast
    constructor
    · omega
    · nlinarith

theorem toFixed1_nonneg (x : ℚ) (h0 : 0 ≤ x) (h1 : x < (10 : ℚ) ^ (21 : ℕ)) :
    toFixed1 (some x) = CardText.decimal (((⌊x * 10 + 1 / 2⌋ : Int) : ℚ) / 10) := by
  unfold toFixed1
  simp only
  rw [if_neg (by rw [abs_of_nonneg h0]; exact not_le.mpr h1), if_neg (not_lt.mpr h0)]

/-- The average of bounded scores. -/
theorem avg_within (B : ℕ) (xs : List Int) (hne : xs ≠ [])
    (hx : ∀ v ∈ xs, 0 ≤ v ∧ v ≤ (B : Int)) (hB : 20 * B * xs.length < 2 ^ 53) :
    ∃ r : ℚ, avg xs = CardText.decimal r ∧ |r - mean xs| ≤ 1 / 20 ∧
      ∃ n : Int, r = (n : ℚ) / 10 := by
  have hLpos : 0 < xs.length := List.length_pos.mpr hne
  have hL0 : xs.length ≠ 0 := by omega
  have hLq : (0 : ℚ) < (xs.length : ℚ) := by exact_mod_cast hLpos
  obtain ⟨hS0, hSB⟩ := sum_bounds B xs hx
  have hBL : 0 + B * xs.length ≤ 2 ^ 53 := by
    have h20 : 20 * B * xs.length = 20 * (B * xs.length) := by ring
    omega
  have hfold := foldl_addDouble B xs 0 hx hBL
  have hfold' : xs.foldl (fun (a : Option ℚ) (b : Int) => addDouble a (toDouble (b : ℚ))) (some 0)
      = some ((xs.sum : Int) : ℚ) := by
    simpa using hfold
  have havg : avg xs = toFixed1 (toDouble (mean xs)) := by
    unfold avg mean
    rw [hfold']
    simp only [hL0, if_false]
  rw [havg]
  have hB53 : (B : ℚ) * (xs.length : ℚ) * 20 < (2 : ℚ) ^ (53 : ℕ) := by
    have : ((20 * B * xs.length : ℕ) : ℚ) < ((2 ^ 53 : ℕ) : ℚ) := by exact_mod_cast hB
    push_cast at this
    linarith
  have hSBq : ((xs.sum : Int) : ℚ) ≤ (B : ℚ) * (xs.length : ℚ) := by exact_mod_cast hSB
  have hmB : mean xs ≤ (B : ℚ) := by
    unfold mean
    rw [div_le_iff₀ hLq]
    exact hSBq
  have hm0 : 0 ≤ mean xs := by
    unfold mean
    exact div_nonneg (by exact_mod_cast hS0) hLq.le
  have hBlt : (B : ℚ) < (2 : ℚ) ^ (53 : ℕ) := by
    have h1 : (1 : ℚ) ≤ (xs.length : ℚ) := by exact_mod_cast hLpos
    have hBn : (0 : ℚ) ≤ (B : ℚ) := by positivity
    nlinarith
  rcases eq_or_lt_of_le hS0 with hzero | hSpos
  · -- the sum is zero
    have hmz : mean xs = 0 := by
      unfold mean
      rw [← hzero]
      simp
    rw [hmz]
    have h0 : toDouble (0 : ℚ) = some 0 := by
      have := toDouble_natCast 0 (by norm_num)
      simpa using this
    rw [h0, toFixed1_nonneg 0 le_rfl (by norm_num)]
    refine ⟨_, rfl, ?_, ⟨⌊(0 : ℚ) * 10 + 1 / 2⌋, rfl⟩⟩
    have hf : ⌊(0 : ℚ) * 10 + 1 / 2⌋ = 0 := Int.floor_eq_iff.mpr ⟨by norm_num, by norm_num⟩
    rw [hf]
    norm_num
  · -- the sum is positive
    have hS1 : (1 : ℚ) ≤ ((xs.sum : Int) : ℚ) := by exact_mod_cast hSpos
    have hLle : (xs.length : ℚ) < (2 : ℚ) ^ (53 : ℕ) := by
      have hB1 : (1 : ℚ) ≤ (B : ℚ) := by
        by_contra hcon
        have hBz : B = 0 := by
          have : (B : ℚ) < 1 := not_le.mp hcon
          have : B < 1 := by exact_mod_cast this
          omega
        rw [hBz] at hSB
        simp only [Nat.cast_zero, zero_mul] at hSB
        omega
      nlinarith
    have hmpos : 1 / (xs.length : ℚ) ≤ mean xs := by
      unfold mean
      exact div_le_div_of_nonneg_right hS1 hLq.le
    have hnorm : (2 : ℚ) ^ (-1022 : Int) ≤ mean xs := by
      refine le_trans ?_ hmpos
      rw [le_div_iff₀ hLq]
      have h2 : (2 : ℚ) ^ (-1022 : Int) ≤ (2 : ℚ) ^ (-53 : Int) :=
        zpow_le_zpow_right₀ (by norm_num) (by norm_num)
      have h3 : (2 : ℚ) ^ (-53 : Int) * (2 : ℚ) ^ (53 : ℕ) = 1 := by
        rw [← zpow_natCast, ← zpow_add₀ (by norm_num : (2 : ℚ) ≠ 0)]
        norm_num
      have h4 : (0 : ℚ) < (2 : ℚ) ^ (-53 : Int) := two_zpow_pos _
      have h5 : (0 : ℚ) < (2 : ℚ) ^ (-1022 : Int) := two_zpow_pos _
      nlinarith
    have herr := roundDouble_error (mean xs) hnorm
    have hm_pos : 0 < mean xs := lt_of_lt_of_le (two_zpow_pos _) hnorm
    have h53 : (0 : ℚ) < (2 : ℚ) ^ (53 : ℕ) := by positivity
    have heps : mean xs / (2 : ℚ) ^ (53 : ℕ) < 1 / (20 * (xs.length : ℚ)) := by
      rw [div_lt_div_iff₀ h53 (by positivity)]
      nlinarith
    have hsmall : mean xs / (2 : ℚ) ^ (53 : ℕ) ≤ mean xs := by
      rw [div_le_iff₀ h53]
      have : (1 : ℚ) ≤ (2 : ℚ) ^ (53 : ℕ) := by norm_num
      nlinarith
    obtain ⟨hlo, hhi⟩ := abs_le.mp herr
    have hx0 : 0 ≤ roundDouble (mean xs) := by linarith
    have hxB : roundDouble (mean xs) ≤ 2 * (B : ℚ) := by linarith
    have hx1024 : |roundDouble (mean xs)| < (2 : ℚ) ^ (1024 : ℕ) := by
      rw [abs_of_nonneg hx0]
      have : (2 : ℚ) * (2 : ℚ) ^ (53 : ℕ) < (2 : ℚ) ^ (1024 : ℕ) := by norm_num
      linarith
    have hx21 : roundDouble (mean xs) < (10 : ℚ) ^ (21 : ℕ) := by
      have : (2 : ℚ) * (2 : ℚ) ^ (53 : ℕ) < (10 : ℚ) ^ (21 : ℕ) := by norm_num
      linarith
    have htd : toDouble (mean xs) = some (roundDouble (mean xs)) := by
      unfold toDouble
      rw [if_pos hx1024]
    rw [htd, toFixed1_nonneg _ hx0 hx21]
    refine ⟨_, rfl, ?_, ⟨⌊roundDouble (mean xs) * 10 + 1 / 2⌋, rfl⟩⟩
    have hf1 := Int.floor_le (roundDouble (mean xs) * 10 + 1 / 2)
    have hf2 := Int.lt_floor_add_one (roundDouble (mean xs) * 10 + 1 / 2)
    generalize hk : ⌊roundDouble (mean xs) * 10 + 1 / 2⌋ = k at hf1 hf2 ⊢
    have hmean : mean xs = ((xs.sum : Int) : ℚ) / (xs.length : ℚ) := rfl
    have hlow : (2 * ((k - 1 : Int) : ℚ) + 1) / 20 ≤ mean xs := by
      by_contra hcon
      have hlt := not_le.mp hcon
      have hgap := tie_gap xs.sum xs.length hLpos (k - 1) (by rw [← hmean]; exact hlt.ne)
      rw [← hmean, abs_of_neg (by linarith)] at hgap
      push_cast at hgap hlt
      linarith
    have hup : mean xs ≤ (2 * ((k : Int) : ℚ) + 1) / 20 := by
      by_contra hcon
      have hlt := not_le.mp hcon
      have hgap := tie_gap xs.sum xs.length hLpos k (by rw [← hmean]; exact hlt.ne')
      rw [← hmean, abs_of_pos (by linarith)] at hgap
      linarith
    rw [abs_le]
    push_cast at hlow
    constructor <;> linarith


theorem roundDouble_two53_succ :
    roundDouble (9007199254740993 : ℚ) = 9007199254740992 := by
  have hlog : Int.log 2 (9007199254740993 : ℚ) = 53 := by
    have h := Int.log_natCast (R := ℚ) 2 9007199254740993
    have hn : Nat.log 2 9007199254740993 = 53 :=
      Nat.log_eq_of_pow_le_of_lt_pow (by norm_num) (by norm_num)
    rw [hn] at h
    exact_mod_cast h
  have hE : ulpExp (9007199254740993 : ℚ) = 1 := by
    unfold ulpExp
    rw [abs_of_pos (by norm_num), hlog]
    rfl
  have hf : ⌊(9007199254740993 : ℚ) / 2⌋ = 4503599627370496 :=
    Int.floor_eq_iff.mpr ⟨by norm_num, by norm_num⟩
  have hr : roundHalfEven ((9007199254740993 : ℚ) / 2) = 4503599627370496 := by
    unfold roundHalfEven
    rw [hf]
    norm_num
  unfold roundDouble
  rw [hE, zpow_one, hr]
  norm_num

/-- With the scores 2 ^ 53 and 1 the sum 2 ^ 53 + 1 is rounded to 2 ^ 53, the quotient is
2 ^ 52 and the card shows 4503599627370496.0. -/
theorem avg_two53_one :
    avg [9007199254740992, 1] = CardText.decimal 4503599627370496 := by
  have h53 : toDouble (9007199254740992 : ℚ) = some 9007199254740992 := by
    have := toDouble_natCast 9007199254740992 (by norm_num)
    exact_mod_cast this
  have h1 : toDouble (1 : ℚ) = some 1 := by
    have := toDouble_natCast 1 (by norm_num)
    exact_mod_cast this
  have hsum : toDouble (9007199254740993 : ℚ) = some 9007199254740992 := by
    unfold toDouble
    rw [roundDouble_two53_succ, if_pos]
    rw [abs_of_pos (by norm_num)]
    have h2 : (2 : ℚ) ^ (54 : ℕ) < (2 : ℚ) ^ (1024 : ℕ) := by norm_num
    have h3 : (9007199254740992 : ℚ) < (2 : ℚ) ^ (54 : ℕ) := by norm_num
    linarith
  have h52 : toDouble (4503599627370496 : ℚ) = some 4503599627370496 := by
    have := toDouble_natCast 4503599627370496 (by norm_num)
    exact_mod_cast this
  have e1 : ((9007199254740992 : Int) : ℚ) = 9007199254740992 := Int.cast_ofNat _
  have e2 : ((1 : Int) : ℚ) = 1 := Int.cast_one
  have a1 : addDouble (some (0 : ℚ)) (some 9007199254740992)
      = toDouble (0 + 9007199254740992) := rfl
  have a2 : addDouble (some (9007199254740992 : ℚ)) (some 1)
      = toDouble (9007199254740992 + 1) := rfl
  have e3 : (9007199254740992 : ℚ) + 1 = 9007199254740993 := by norm_num
  have hfold : [(9007199254740992 : Int), 1].foldl
      (fun (a : Option ℚ) (b : Int) => addDouble a (toDouble (b : ℚ))) (some 0)
      = some 9007199254740992 := by
    rw [List.foldl_cons, List.foldl_cons, List.foldl_nil, e1, e2, h53, h1, a1, zero_add, h53,
      a2, e3, hsum]
  have e4 : (9007199254740992 : ℚ) / ((2 : ℕ) : ℚ) = 4503599627370496 := by norm_num
  have hlen : ([(9007199254740992 : Int), 1]).length = 2 := rfl
  unfold avg
  rw [hfold]
  simp only [hlen, OfNat.ofNat_ne_zero, if_false]
  rw [e4, h52, toFixed1_nonneg _ (by norm_num) (by norm_num)]
  have hf : ⌊(4503599627370496 : ℚ) * 10 + 1 / 2⌋ = 45035996273704960 :=
    Int.floor_eq_iff.mpr ⟨by norm_num, by norm_num⟩
  rw [hf]
  norm_num

/-- C12 (counterexample): two filtered entries with wellness scores 2 ^ 53 and 1 (scores
that an imported file can hold). The sum 2 ^ 53 + 1 is not a double and is rounded to
2 ^ 53, so the wellness card shows 4503599627370496.0, while the arithmetic mean is
4503599627370496.5: the displayed value is 0.5 away from the mean, not within 0.05. -/
theorem updateSummaryCards_huge_scores :
    (updateSummaryCards hugeScored).avgWellness = CardText.decimal 4503599627370496 ∧
    mean (hugeScored.map (fun e => e.scores.wellness)) = 9007199254740993 / 2 ∧
    ¬ |(4503599627370496 : ℚ) - mean (hugeScored.map (fun e => e.scores.wellness))|
        ≤ 1 / 20 := by
  have hmap : hugeScored.map (fun e => e.scores.wellness) = [9007199254740992, 1] := rfl
  have hmean : mean [9007199254740992, 1] = 9007199254740993 / 2 := by
    unfold mean
    simp only [List.sum_cons, List.sum_nil, List.length_cons, List.length_nil]
    norm_num
  refine ⟨?_, ?_, ?_⟩
  · have hlen : ¬ hugeScored.length = 0 := by decide
    unfold updateSummaryCards
    rw [if_neg hlen]
    show avg (hugeScored.map (fun e => e.scores.wellness)) = _
    rw [hmap]
    exact avg_two53_one
  · rw [hmap]
    exact hmean
  · rw [hmap, hmean]
    norm_num [abs_le]

/-- C12 (amended): for every non-empty sequence of filtered entries whose wellness, energy
and pain scores are integers between 0 and a bound `B` with `20 * B * length < 2 ^ 53` (in
particular the scores 1 to 10 of the data model, for every array), each displayed average
is a decimal numeral with one digit after the point whose value is within 0.05 of the
arithmetic mean of that score over all the filtered entries, and the displayed count is the
number of filtered entries. The sum and the quotient are computed in doubles. -/
theorem updateSummaryCards_averages (B : ℕ) (es : List Entry) (h : es ≠ [])
    (hB : 20 * B * es.length < 2 ^ 53)
    (hs : ∀ e ∈ es,
      (0 ≤ e.scores.wellness ∧ e.scores.wellness ≤ (B : Int)) ∧
      (0 ≤ e.scores.energy ∧ e.scores.energy ≤ (B : Int)) ∧
      (0 ≤ e.scores.pain ∧ e.scores.pain ≤ (B : Int))) :
    ∃ w e p : ℚ,
      updateSummaryCards es
        = { avgWellness := CardText.decimal w, avgEnergy := CardText.decimal e
            avgPain := CardText.decimal p, totalEntries := es.length } ∧
      (|w - mean (es.map (fun x => x.scores.wellness))| ≤ 1 / 20 ∧
        ∃ n : Int, w = (n : ℚ) / 10) ∧
      (|e - mean (es.map (fun x => x.scores.energy))| ≤ 1 / 20 ∧
        ∃ n : Int, e = (n : ℚ) / 10) ∧
      (|p - mean (es.map (fun x => x.scores.pain))| ≤ 1 / 20 ∧
        ∃ n : Int, p = (n : ℚ) / 10) := by
  have hlen : ¬ es.length = 0 := fun h0 => h (List.length_eq_zero.mp h0)
  have hne : ∀ f : Entry → Int, es.map f ≠ [] := fun f hf => h (List.map_eq_nil_iff.mp hf)
  have hbound : ∀ f : Entry → Int, (∀ e ∈ es, 0 ≤ f e ∧ f e ≤ (B : Int)) →
      ∀ v ∈ es.map f, 0 ≤ v ∧ v ≤ (B : Int) := by
    intro f hf v hv
    obtain ⟨e, he, rfl⟩ := List.mem_map.mp hv
    exact hf e he
  have hBl : ∀ f : Entry → Int, 20 * B * (es.map f).length < 2 ^ 53 := by
    intro f
    rw [List.length_map]
    exact hB
  obtain ⟨w, hw, hw1, hw2⟩ := avg_within B (es.map (fun x => x.scores.wellness)) (hne _)
    (hbound _ (fun e he => (hs e he).1)) (hBl _)
  obtain ⟨e, he, he1, he2⟩ := avg_within B (es.map (fun x => x.scores.energy)) (hne _)
    (hbound _ (fun x hx => (hs x hx).2.1)) (hBl _)
  obtain ⟨p, hp, hp1, hp2⟩ := avg_within B (es.map (fun x => x.scores.pain)) (hne _)
    (hbound _ (fun x hx => (hs x hx).2.2)) (hBl _)
  refine ⟨w, e, p, ?_, ⟨hw1, hw2⟩, ⟨he1, he2⟩, ⟨hp1, hp2⟩⟩
  unfold updateSummaryCards
  rw [if_neg hlen, hw, he, hp]

/-- Witness for C12: three entries with wellness 5, 5, 6, energy 1, 2, 2 and pain
10, 10, 9, all within the bound 10. -/
theorem updateSummaryCards_averages_witness :
    ∃ w e p : ℚ,
      updateSummaryCards threeScored
        = { avgWellness := CardText.decimal w, avgEnergy := CardText.decimal e
            avgPain := CardText.decimal p, totalEntries := 3 } ∧
      |w - mean (threeScored.map (fun x => x.scores.wellness))| ≤ 1 / 20 :=
  (updateSummaryCards_averages 10 threeScored (by decide) (by decide) (by decide)).elim
    fun w hw => hw.elim fun e he => he.elim fun p hp => ⟨w, e, p, hp.1, hp.2.1.1⟩

/-! ### Order of the analytics view -/

theorem compareAsc_valid {a b : Entry} {ta tb : Int} (ha : dateParse a.date = some ta)
    (hb : dateParse b.date = some tb) : compareAsc a b = ta - tb := by
  simp [compareAsc, dateDiff, ha, hb]

theorem insertBy_sortedAsc (a : Entry) (l : List Entry)
    (ha : (dateParse a.date).isSome = true) (hl : ValidDates l) (hs : SortedAsc l) :
    SortedAsc (insertBy compareAsc a l) := by
  obtain ⟨ta, hta⟩ := Option.isSome_iff_exists.mp ha
  induction l with
  | nil => simp [insertBy, SortedAsc]
  | cons b l ih =>
    obtain ⟨tb, htb⟩ := Option.isSome_iff_exists.mp (hl b (List.mem_cons_self b l))
    have hl1 : ValidDates l := fun e he => hl e (List.mem_cons_of_mem b he)
    have hs1 := List.pairwise_cons.mp hs
    unfold insertBy
    split
    · next hab =>
      rw [compareAsc_valid hta htb] at hab
      refine List.pairwise_cons.mpr ⟨?_, hs⟩
      intro x hx
      rcases List.mem_cons.mp hx with rfl | hx
      · exact (newestFirst_iff htb hta).mpr (by omega)
      · obtain ⟨tx, htx⟩ := Option.isSome_iff_exists.mp (hl1 x hx)
        have := (newestFirst_iff htx htb).mp (hs1.1 x hx)
        exact (newestFirst_iff htx hta).mpr (by omega)
    · next hab =>
      rw [compareAsc_valid hta htb] at hab
      refine List.pairwise_cons.mpr ⟨?_, ih hl1 hs1.2⟩
      intro x hx
      rcases List.mem_cons.mp ((insertBy_perm compareAsc a l).subset hx) with rfl | hx
      · exact (newestFirst_iff hta htb).mpr (by omega)
      · exact hs1.1 x hx

theorem sortAsc_sortedAsc (es : List Entry) (h : ValidDates es) : SortedAsc (sortAsc es) := by
  induction es with
  | nil => simp [sortAsc, sortBy, SortedAsc]
  | cons a l ih =>
    have hl : ValidDates l := fun e he => h e (List.mem_cons_of_mem a he)
    have hv : ValidDates (sortBy compareAsc l) :=
      fun e he => hl e ((sortBy_perm compareAsc l).subset he)
    exact insertBy_sortedAsc a _ (h a (List.mem_cons_self a l)) hv (ih hl)

/-- C14: for every entry collection with valid dates, in any order, and every window, the
output of `getFilteredEntries` is sorted ascending by date and is made of entries of the
collection (each at most as often as in the collection); for the window `all` it is a
rearrangement of the whole collection. The function returns a new list and has no effect
on the state: it sorts the copy `[...entries]` or the result of `filter`. -/
theorem getFilteredEntries_sorted (s : State) (now tza : Int) (hv : ValidDates s.entries) :
    SortedAsc (getFilteredEntries s now tza) ∧
    (∀ e ∈ getFilteredEntries s now tza, e ∈ s.entries) ∧
    List.Subperm (getFilteredEntries s now tza) s.entries ∧
    (s.selectedRange = Range.all → (getFilteredEntries s now tza).Perm s.entries) := by
  have hsub : ∀ (p : Entry → Bool), ValidDates (s.entries.filter p) :=
    fun p e he => hv e (List.mem_filter.mp he).1
  have hfil : ∀ (p : Entry → Bool), List.Subperm (sortAsc (s.entries.filter p)) s.entries :=
    fun p => (sortAsc_perm _).subperm.trans (List.filter_sublist _).subperm
  have hall : List.Subperm (sortAsc s.entries) s.entries := (sortAsc_perm _).subperm
  unfold getFilteredEntries
  cases hr : s.selectedRange with
  | all =>
    exact ⟨sortAsc_sortedAsc _ hv, fun e he => (sortAsc_perm _).subset he, hall,
      fun _ => sortAsc_perm _⟩
  | days n =>
    simp only
    split
    · exact ⟨sortAsc_sortedAsc _ hv, fun e he => (sortAsc_perm _).subset he, hall,
        fun h => by cases h⟩
    · exact ⟨sortAsc_sortedAsc _ (hsub _),
        fun e he => (List.mem_filter.mp ((sortAsc_perm _).subset he)).1, hfil _,
        fun h => by cases h⟩

/-- Witness for C14: the store with entries dated 2024-01-03 and 2024-01-01, newest first,
viewed at 2024-01-03T00:00Z with a window of 2 days: the view lists them oldest first. -/
theorem getFilteredEntries_sorted_witness :
    getFilteredEntries windowStore midnightJan3 0
      = [sampleEntry "y" "2024-01-01", sampleEntry "x" "2024-01-03"] ∧
    SortedAsc (getFilteredEntries windowStore midnightJan3 0) :=
  ⟨by decide, (getFilteredEntries_sorted windowStore midnightJan3 0 (by decide)).1⟩

/-! ### Substance aggregates -/

theorem lookup_map_bump (counts : List (String × PeptideStat)) (p : Peptide) (name : String) :
    (counts.map (fun kv => if kv.1 == p.name then (kv.1, bumpStat p kv.2) else kv)).lookup name
    = if name = p.name then (counts.lookup name).map (bumpStat p) else counts.lookup name := by
  induction counts with
  | nil => simp
  | cons kv counts ih =>
    obtain ⟨k, st⟩ := kv
    rw [List.map_cons]
    by_cases hk : k = p.name
    · have hkb : (k == p.name) = true := by simpa using hk
      simp only [hkb, if_true]
      by_cases hn : name = k
      · subst hn
        simp [hk]
      · have hnk : (name == k) = false := by simpa using hn
        rw [List.lookup_cons, List.lookup_cons, hnk]
        exact ih
    · have hkb : (k == p.name) = false := by simpa using hk
      simp only [hkb, Bool.false_eq_true, if_false]
      by_cases hn : name = k
      · subst hn
        simp [hk]
      · have hnk : (name == k) = false := by simpa using hn
        rw [List.lookup_cons, List.lookup_cons, hnk]
        exact ih

theorem lookup_append_single (counts : List (String × PeptideStat)) (k name : String)
    (st : PeptideStat) :
    (counts ++ [(k, st)]).lookup name
    = (counts.lookup name).or (if name = k then some st else none) := by
  induction counts with
  | nil =>
    by_cases hn : name = k
    · subst hn; simp
    · have hnk : (name == k) = false := by simpa using hn
      simp [List.lookup_cons, hnk, hn]
  | cons kv counts ih =>
    obtain ⟨k1, st1⟩ := kv
    by_cases h1 : name = k1
    · subst h1; simp
    · have hnk : (name == k1) = false := by simpa using h1
      rw [List.cons_append, List.lookup_cons, hnk, ih, List.lookup_cons, hnk]

/-- One step of the aggregation, seen at a name that is not inherited from
`Object.prototype`. -/
theorem lookup_countPeptide (counts : List (String × PeptideStat)) (p : Peptide)
    (name : String) (hn : name ∉ objectPrototypeKeys) :
    (countPeptide counts p).lookup name
    = if p.name = name then
        some (bumpStat p ((counts.lookup name).getD
          { count := 0, totalDosage := 0, unit := p.unit }))
      else counts.lookup name := by
  unfold countPeptide
  simp only
  rw [lookup_map_bump]
  by_cases hp : p.name = name
  · subst hp
    have hkeys : objectPrototypeKeys.contains p.name = false := by simpa using hn
    rw [if_pos rfl, if_pos rfl]
    cases hl : counts.lookup p.name with
    | none =>
      have ht : hasTruthy counts p.name = false := by simp [hasTruthy, hl, hn]
      simp only [ht, Bool.not_false, if_true]
      rw [lookup_append_single, hl, if_pos rfl]
      rfl
    | some st =>
      have ht : hasTruthy counts p.name = true := by simp [hasTruthy, hl]
      simp only [ht, Bool.not_true, Bool.false_eq_true, if_false]
      rw [hl]
      rfl
  · have hp1 : ¬ name = p.name := fun h => hp h.symm
    rw [if_neg hp1, if_neg hp]
    split
    · rw [lookup_append_single, if_neg hp1]
      simp
    · rfl

/-- One step of the aggregation never creates an aggregate for a name inherited from
`Object.prototype`. -/
theorem lookup_countPeptide_inherited (counts : List (String × PeptideStat)) (p : Peptide)
    (name : String) (hn : name ∈ objectPrototypeKeys) (h : counts.lookup name = none) :
    (countPeptide counts p).lookup name = none := by
  unfold countPeptide
  simp only
  rw [lookup_map_bump]
  have hkeys : objectPrototypeKeys.contains name = true := by simpa using hn
  by_cases hp : name = p.name
  · rw [if_pos hp]
    have ht : hasTruthy counts p.name = true := by
      rw [← hp]
      simp [hasTruthy, hn]
    simp only [ht, Bool.not_true, Bool.false_eq_true, if_false]
    rw [h]
    rfl
  · rw [if_neg hp]
    split
    · rw [lookup_append_single, if_neg hp, h]
      rfl
    · exact h

theorem lookup_foldl_countPeptide (ps : List Peptide) (counts : List (String × PeptideStat))
    (name : String) (hn : name ∉ objectPrototypeKeys) :
    (ps.foldl countPeptide counts).lookup name
    = accumulate (counts.lookup name) (ps.filter (fun p => p.name == name)) := by
  induction ps generalizing counts with
  | nil => rfl
  | cons p ps ih =>
    rw [List.foldl_cons, ih, lookup_countPeptide counts p name hn, List.filter_cons]
    by_cases hp : p.name = name
    · have hb : (p.name == name) = true := by simpa using hp
      rw [if_pos hp, if_pos hb]
      rfl
    · have hb : ¬ (p.name == name) = true := by simpa using hp
      rw [if_neg hp, if_neg hb]

theorem lookup_foldl_countPeptide_inherited (ps : List Peptide)
    (counts : List (String × PeptideStat)) (name : String) (hn : name ∈ objectPrototypeKeys)
    (h : counts.lookup name = none) : (ps.foldl countPeptide counts).lookup name = none := by
  induction ps generalizing counts with
  | nil => exact h
  | cons p ps ih =>
    rw [List.foldl_cons]
    exact ih _ (lookup_countPeptide_inherited counts p name hn h)

theorem peptideCounts_eq_foldl (es : List Entry) (counts : List (String × PeptideStat)) :
    es.foldl (fun counts entry => entry.peptides.foldl countPeptide counts) counts
    = (es.flatMap (fun e => e.peptides)).foldl countPeptide counts := by
  induction es generalizing counts with
  | nil => rfl
  | cons e es ih => rw [List.foldl_cons, ih, List.flatMap_cons, List.foldl_append]

theorem accumulate_some (st : PeptideStat) (occ : List Peptide) :
    accumulate (some st) occ
    = some { count := st.count + occ.length
             totalDosage := st.totalDosage + (occ.map (fun q => q.dosage)).sum
             unit := st.unit } := by
  induction occ generalizing st with
  | nil => simp [accumulate]
  | cons p rest ih =>
    have hd : (if p.dosage = 0 then (0 : ℚ) else p.dosage) = p.dosage := by
      split
      · next h0 => exact h0.symm
      · rfl
    unfold accumulate
    rw [Option.getD_some, ih]
    simp only [bumpStat, hd, List.length_cons, List.map_cons, List.sum_cons]
    congr 2
    · omega
    · ring

theorem accumulate_none (occ : List Peptide) : accumulate none occ = aggregateOf occ := by
  cases occ with
  | nil => rfl
  | cons p rest =>
    have hd : (if p.dosage = 0 then (0 : ℚ) else p.dosage) = p.dosage := by
      split
      · next h0 => exact h0.symm
      · rfl
    unfold accumulate aggregateOf
    rw [Option.getD_none, accumulate_some]
    simp only [bumpStat, hd, List.length_cons, List.map_cons, List.sum_cons]
    congr 2
    · omega
    · ring

/-- For every name that is not a property name inherited from `Object.prototype`, the
aggregate built by `updatePeptideSummary` is absent when the name never occurs, and
otherwise has the number of occurrences, the sum of their dosages and the unit of the first
occurrence. -/
theorem peptideCounts_lookup (es : List Entry) (name : String)
    (hn : name ∉ objectPrototypeKeys) :
    (peptideCounts es).lookup name = aggregateOf (occurrences name es) := by
  unfold peptideCounts occurrences
  rw [peptideCounts_eq_foldl, lookup_foldl_countPeptide _ _ _ hn]
  exact accumulate_none _

/-- A name inherited from `Object.prototype` never has an aggregate. -/
theorem peptideCounts_lookup_inherited (es : List Entry) (name : String)
    (hn : name ∈ objectPrototypeKeys) : (peptideCounts es).lookup name = none := by
  unfold peptideCounts
  rw [peptideCounts_eq_foldl]
  exact lookup_foldl_countPeptide_inherited _ _ _ hn rfl

/-- The scenario of two entries, each with one occurrence of BPC-157 (250 mcg): the
aggregate is 2 doses, 500 in total, unit mcg. -/
theorem peptideCounts_two_bpc :
    peptideCounts [dosedEntry "a" [bpc], dosedEntry "b" [bpc]]
      = [("BPC-157", { count := 2, totalDosage := 500, unit := "mcg" })] := by
  simp [peptideCounts, countPeptide, bumpStat, hasTruthy, objectPrototypeKeys, dosedEntry, bpc,
    sampleEntry, List.lookup]
  norm_num

/-- C13 (code defect): a substance whose name is a property name that `{}` inherits from
`Object.prototype` gets no aggregate. One entry lists one substance named `constructor`
(250 mcg): the name occurs once, so the claim asks for an aggregate with doseCount 1 and
totalDosage 250, but the read `peptideCounts["constructor"]` is truthy (the inherited
function), no own property is created, `peptideCounts` stays empty and the summary shows
"No peptide data in selected range". Every other name is aggregated as claimed
(`peptideCounts_lookup`). -/
theorem updatePeptideSummary_inherited_name :
    occurrences "constructor" [dosedEntry "a" [constructorPeptide]] = [constructorPeptide] ∧
    peptideCounts [dosedEntry "a" [constructorPeptide]] = [] ∧
    (peptideCounts [dosedEntry "a" [constructorPeptide]]).lookup "constructor" = none ∧
    updatePeptideSummary [dosedEntry "a" [constructorPeptide]] = none := by
  decide

/-! ### Export and import -/

theorem map_eq_self_iff {α : Type} (f : α → α) (l : List α) :
    l.map f = l ↔ ∀ x ∈ l, f x = x := by
  induction l with
  | nil => simp
  | cons a l ih => simp [ih]

theorem jsonPeptide_eq_self (p : RawPeptide) : jsonPeptide p = p ↔ p.dosage.Storable := by
  obtain ⟨name, dosage, unit, site⟩ := p
  simp [jsonPeptide, NumValue.Storable]

theorem jsonPeptides_eq_self (ps : List RawPeptide) :
    ps.map jsonPeptide = ps ↔ StorablePeptides ps := by
  rw [map_eq_self_iff]
  exact forall_congr' fun p => imp_congr_right fun _ => jsonPeptide_eq_self p

theorem jsonEntry_eq_self (e : RawEntry) :
    jsonEntry e = e ↔
      e.scores.wellness.Storable ∧ e.scores.energy.Storable ∧ e.scores.pain.Storable ∧
        e.scores.sleep.Storable ∧ e.scores.mobility.Storable ∧ StorablePeptides e.peptides := by
  obtain ⟨id, date, ⟨w, en, pa, sl, mo⟩, peptides, notes, createdAt, updatedAt⟩ := e
  simp only [jsonEntry, RawEntry.mk.injEq, RawScores.mk.injEq, true_and, and_true,
    NumValue.Storable, jsonPeptides_eq_self, and_assoc]

theorem jsonEntries_eq_self (es : List RawEntry) :
    es.map jsonEntry = es ↔ StorableEntries es := by
  rw [map_eq_self_iff]
  exact forall_congr' fun e => imp_congr_right fun _ => jsonEntry_eq_self e

/-- The values of the typed store are finite, so they come back from a file unchanged. -/
theorem jsonEntry_toRaw (e : Entry) : jsonEntry e.toRaw = e.toRaw := by
  rw [jsonEntry_eq_self]
  refine ⟨rfl, rfl, rfl, rfl, rfl, ?_⟩
  intro p hp
  obtain ⟨q, _, rfl⟩ := List.mem_map.mp hp
  rfl

/-- Importing an exported backup into a store with no entries assigns what the file holds:
the entries and the registry after `JSON.stringify` and `JSON.parse`. -/
theorem importDataRaw_exported (s t : RawState) (confirm : Bool) (ht : t.entries = []) :
    importDataRaw t (some (jsonBackup (exportDataRaw s).1)) confirm
    = Except.ok
        { t with
          entries := s.entries.map jsonEntry
          savedPeptides := s.savedPeptides.map jsonPeptide
          currentPeptides := initRawCurrent (s.savedPeptides.map jsonPeptide)
          toasts := t.toasts ++ [Toast.imported] } := by
  have hlen : ¬ t.entries.length > 0 := by simp [ht]
  simp [importDataRaw, jsonBackup, exportDataRaw, importPeptidesRaw, hlen]

/-- C11 (counterexample): the registry holds one substance whose dosage is `Infinity`.
`JSON.stringify` writes the dosage as `null`, so after exporting and importing into the
empty store the registry holds the substance with dosage `null`: it is not the same
registry. -/
theorem export_import_loses_infinite_dosage :
    importDataRaw emptyRawStore (some (jsonBackup (exportDataRaw infiniteDoseStore).1)) false
      = Except.ok
          { entries := []
            savedPeptides := [{ name := "X", dosage := NumValue.null, unit := "mg", site := "" }]
            currentPeptides :=
              [{ name := "X", dosage := NumValue.null, unit := "mg", site := ""
                 administered := false }]
            toasts := [Toast.imported] } ∧
    [({ name := "X", dosage := NumValue.null, unit := "mg", site := "" } : RawPeptide)]
      ≠ infiniteDoseStore.savedPeptides :=
  ⟨rfl, by decide⟩

/-- C11 (amended): for every store in which every score and every dosage is a finite number
or `null`, exporting it and importing the exported backup into a store with no entries
completes without error and reproduces the entry collection exactly (the same entries, equal
in every field, in the same order) and the same registry; the transient list is rebuilt
from the registry. Conversely, when the import reproduces the collection and the registry,
every score and dosage is a finite number or `null`. -/
theorem export_import_roundtrip (s t : RawState) (confirm : Bool) (ht : t.entries = []) :
    ∃ t1, importDataRaw t (some (jsonBackup (exportDataRaw s).1)) confirm = Except.ok t1 ∧
      (StorableEntries s.entries → StorablePeptides s.savedPeptides →
        t1.entries = s.entries ∧ t1.savedPeptides = s.savedPeptides ∧
        t1.currentPeptides = initRawCurrent s.savedPeptides) ∧
      (t1.entries = s.entries ∧ t1.savedPeptides = s.savedPeptides →
        StorableEntries s.entries ∧ StorablePeptides s.savedPeptides) := by
  refine ⟨_, importDataRaw_exported s t confirm ht, ?_, ?_⟩
  · intro he hp
    have h1 := (jsonEntries_eq_self s.entries).mpr he
    have h2 := (jsonPeptides_eq_self s.savedPeptides).mpr hp
    simp only [h1, h2, and_self]
  · intro h
    exact ⟨(jsonEntries_eq_self s.entries).mp h.1, (jsonPeptides_eq_self s.savedPeptides).mp h.2⟩

/-- Witness for C11: the finite raw store exported and imported into the empty store. -/
theorem export_import_roundtrip_witness :
    ∃ t1, importDataRaw emptyRawStore (some (jsonBackup (exportDataRaw finiteRawStore).1)) true
        = Except.ok t1 ∧
      t1.entries = finiteRawStore.entries ∧ t1.savedPeptides = finiteRawStore.savedPeptides :=
  (export_import_roundtrip finiteRawStore emptyRawStore true rfl).elim fun t1 h =>
    ⟨t1, h.1,
      (h.2.1
        (by
          intro e he
          simp only [finiteRawStore, List.mem_singleton] at he
          subst he
          refine ⟨rfl, rfl, rfl, rfl, rfl, ?_⟩
          intro p hp
          simp only [List.mem_singleton] at hp
          subst hp
          rfl)
        (by
          intro p hp
          simp only [finiteRawStore, List.mem_singleton] at hp
          subst hp
          rfl)).1,
      (h.2.1
        (by
          intro e he
          simp only [finiteRawStore, List.mem_singleton] at he
          subst he
          refine ⟨rfl, rfl, rfl, rfl, rfl, ?_⟩
          intro p hp
          simp only [List.mem_singleton] at hp
          subst hp
          rfl)
        (by
          intro p hp
          simp only [finiteRawStore, List.mem_singleton] at hp
          subst hp
          rfl)).2.1⟩

end WellnessJournal
